import Mathlib

/-!
Shallow embedding of `sleap_io/io/labelstudio.py`: conversion between the sleap-io
label model and the Label Studio JSON task format.

Python dicts are modelled as association lists in insertion order, Python floats as
`JNum` (NaN or an exact rational), and Python exceptions as `Except PErr`.
Loops are written as structural recursions mirroring the source's `for` statements.
-/

set_option autoImplicit false

namespace LabelStudio

/-- A JSON number as Python's `json` module produces it: NaN or a rational value. -/
inductive JNum where
  | nan : JNum
  | num : ℚ → JNum
deriving DecidableEq

/-- Python `math.isnan`. -/
def JNum.isnan : JNum → Bool
  | .nan => true
  | .num _ => false

/-- Python float multiplication: NaN is absorbing. -/
def JNum.mul : JNum → JNum → JNum
  | .nan, _ => .nan
  | .num _, .nan => .nan
  | .num a, .num b => .num (a * b)

/-- Python `v / 100` on a float: NaN stays NaN. -/
def JNum.div100 : JNum → JNum
  | .nan => .nan
  | .num a => .num (a / 100)

/-- Python `v * 100` on a float: NaN stays NaN. -/
def JNum.mul100 : JNum → JNum
  | .nan => .nan
  | .num a => .num (a * 100)

/-- Python `v / d` for an integer `d`: `ZeroDivisionError` (modelled as `none`) when
`d = 0`, otherwise NaN stays NaN. -/
def JNum.divBy (x : JNum) (d : ℚ) : Option JNum :=
  if d = 0 then none
  else
    match x with
    | .nan => some .nan
    | .num a => some (.num (a / d))

/-- A Python `dict` with string keys, modelled as an association list in insertion
order (Python dicts preserve insertion order). -/
abbrev AList (α : Type) : Type := List (String × α)

/-- Python `m[k]` lookup; `none` models `KeyError`. -/
def alLookup {α : Type} : AList α → String → Option α
  | [], _ => none
  | (k, v) :: rest, key => if k = key then some v else alLookup rest key

/-- Python `m[k] = v`: overwrite in place when the key exists, append otherwise. -/
def alInsert {α : Type} : AList α → String → α → AList α
  | [], key, v => [(key, v)]
  | (k, w) :: rest, key, v =>
    if k = key then (k, v) :: rest else (k, w) :: alInsert rest key v

/-- Python `m.pop(k)` with no default: remove the entry and return it; `none`
models `KeyError`. -/
def alPop {α : Type} : AList α → String → Option (α × AList α)
  | [], _ => none
  | (k, v) :: rest, key =>
    if k = key then some (v, rest)
    else
      match alPop rest key with
      | none => none
      | some (w, rest2) => some (w, (k, v) :: rest2)

/-- The keys of the dict, in order. -/
def alKeys {α : Type} (m : AList α) : List String := m.map Prod.fst

/-- The dict with all the given keys removed (used to describe the effect of the
pops of a whole relation list on the keypoint pool). -/
def alDropKeys {α : Type} (m : AList α) (li : List String) : AList α :=
  m.filter fun kv => decide (kv.1 ∉ li)

/-- The `value` object of a `keypointlabels` result item. -/
structure KptValue where
  x : JNum
  y : JNum
  keypointlabels : List String
deriving DecidableEq

/-- The `value` object of a `rectanglelabels` result item. -/
structure RectValue where
  x : JNum
  y : JNum
  width : JNum
  height : JNum
  rotation : JNum
  rectanglelabels : List String
deriving DecidableEq

/-- One entry of a task's flat `result` list, tagged by its `type` field.
The constant routing fields of the source (`from_name`, `to_name`) carry no data
and are not modelled; `direction` of a relation is kept. -/
inductive RItem where
  | rect (id : String) (original_width original_height image_rotation : JNum)
      (value : RectValue)
  | kpt (id : String) (original_width original_height image_rotation : JNum)
      (value : KptValue)
  | rel (from_id to_id direction : String)
deriving DecidableEq

/-- The `type` field of a result item. -/
def RItem.type : RItem → String
  | .rect _ _ _ _ _ => "rectanglelabels"
  | .kpt _ _ _ _ _ => "keypointlabels"
  | .rel _ _ _ => "relation"

/-- Python `d["id"]`: relation items carry no `id` field (`none` models `KeyError`). -/
def RItem.idOpt : RItem → Option String
  | .rect i _ _ _ _ => some i
  | .kpt i _ _ _ _ => some i
  | .rel _ _ _ => none

/-- The `original_width`, `original_height` and keypoint `value` fields read off a
keypoint item; `none` models the `KeyError` a non-keypoint dict would raise. -/
def RItem.kptData : RItem → Option (JNum × JNum × KptValue)
  | .kpt _ ow oh _ v => some (ow, oh, v)
  | _ => none

/-- Modelled from the spec: the internal `Video` collaborator (sleap-io model class,
outside this source file) carries a filename and an optional shape
`(frames, height, width, channels)`. -/
structure Video where
  filename : String
  shape : Option (Nat × Nat × Nat × Nat)
deriving DecidableEq

/-- Modelled from the spec: the internal `Point` collaborator carries x, y and a
visibility flag; `none` models the constructor's default (unset) visibility, and
`some b` an explicitly passed `visible=b`. -/
structure Point where
  x : JNum
  y : JNum
  visible : Option Bool
deriving DecidableEq

/-- Modelled from the spec: a `Skeleton` is an ordered, named set of keypoint labels. -/
structure Skeleton where
  nodes : List String
deriving DecidableEq

/-- Modelled from the spec: an `Instance` maps named skeleton nodes to points.
`Node` objects are identified by their name, so the points dict is keyed by the
node name. -/
structure Instance where
  points : AList Point
  skeleton : Skeleton
deriving DecidableEq

/-- Modelled from the spec: a `LabeledFrame` ties a video reference and frame index
to a list of instances. -/
structure LabeledFrame where
  video : Video
  frame_idx : Nat
  instances : List Instance
deriving DecidableEq

/-- Modelled from the spec: a `Labels` collection is a list of labeled frames. -/
structure Labels where
  labeled_frames : List LabeledFrame
deriving DecidableEq

/-- The errors the module can raise.  `keyError`/`indexError` model Python's dict and
list lookup failures, `missingAnn` the `ValueError` of `parse_tasks`, `missingVideo`
the `KeyError` of `video_from_task`, `zeroDivision` Python's `ZeroDivisionError`,
and `wrapped` the `RuntimeError` of `task_to_labeled_frame`, which records the
task's identifier and chains the original cause. -/
inductive PErr where
  | keyError (key : String)
  | indexError
  | missingAnn
  | missingVideo
  | zeroDivision
  | wrapped (taskId : String) (cause : PErr)
deriving DecidableEq

/-- The `meta.video` object of a task. -/
structure VideoMeta where
  filename : String
  frame_idx : Nat
  shape : Option (Nat × Nat × Nat × Nat)
deriving DecidableEq

/-- One annotation set of a task: the `result` list plus the constant bookkeeping
fields the writer emits (timestamps are wall-clock values and are not modelled). -/
structure AnnSet where
  result : List RItem
  was_cancelled : Bool
  ground_truth : Bool
  lead_time : Nat
  result_count : Nat
deriving DecidableEq

/-- One task record.  `annSets` models the `"annotations"` key, `completions` the
`"completions"` key; a field of `none` models absence of the key. -/
structure Task where
  id : Option String
  annSets : Option (List AnnSet)
  completions : Option (List AnnSet)
  meta_video : Option VideoMeta
deriving DecidableEq

/-- The two possible annotation-set keys of a task. -/
inductive AKey where
  | annKey
  | compKey
deriving DecidableEq

/-- The string name of an annotation-set key. -/
def AKey.str : AKey → String
  | .annKey => "annotations"
  | .compKey => "completions"

/-- Python `task[key]` for the two annotation-set keys. -/
def Task.get : Task → AKey → Option (List AnnSet)
  | t, .annKey => t.annSets
  | t, .compKey => t.completions

/-- `video_from_task`: retrieve video information from `task.meta.video`, raising
when it is absent. -/
def video_from_task (task : Task) : Except PErr (Video × Nat) :=
  match task.meta_video with
  | some m => .ok (⟨m.filename, m.shape⟩, m.frame_idx)
  | none => .error .missingVideo

/-- The dict comprehension of `filter_and_index`: index the filtered items by their
`id` field, later duplicate ids overwriting earlier ones. -/
def indexLoop : List RItem → AList RItem → Except PErr (AList RItem)
  | [], acc => .ok acc
  | item :: rest, acc =>
    match item.idOpt with
    | none => .error (.keyError "id")
    | some i => indexLoop rest (alInsert acc i item)

/-- `filter_and_index`: keep the items whose `type` field equals `annot_type` and
index them by `id`. -/
def filter_and_index (annots : List RItem) (annot_type : String) :
    Except PErr (AList RItem) :=
  indexLoop (annots.filter fun d => d.type == annot_type) []

/-- One edge insertion of `build_relation_map`: ensure the key is present, then
append the neighbour. -/
def addRelEdge (relmap : AList (List String)) (a b : String) : AList (List String) :=
  alInsert relmap a ((alLookup relmap a).getD [] ++ [b])

/-- The `for rel in relations` loop of `build_relation_map`. -/
def buildRelLoop : List (String × String) → AList (List String) → AList (List String)
  | [], relmap => relmap
  | (f, t) :: rest, relmap => buildRelLoop rest (addRelEdge (addRelEdge relmap f t) t f)

/-- The `from_id`/`to_id` pairs of the `relation`-typed items, in order. -/
def relPairs : List RItem → List (String × String)
  | [] => []
  | .rel f t _ :: rest => (f, t) :: relPairs rest
  | _ :: rest => relPairs rest

/-- `build_relation_map`: a two-way relationship map over the `relation`-typed
items, indexed by `from_id` and `to_id`. -/
def build_relation_map (annots : List RItem) : AList (List String) :=
  buildRelLoop (relPairs annots) []

/-- The `for rel in relations[indv_id]` loop of `task_to_labeled_frame`: pop each
related keypoint out of the pool, convert its percentage coordinates with its own
`original_width`/`original_height`, and record it unless a coordinate is NaN. -/
def claimKeypoints : List String → AList Point → AList RItem →
    Except PErr (AList Point × AList RItem)
  | [], points, keypoints => .ok (points, keypoints)
  | r :: rest, points, keypoints =>
    match alPop keypoints r with
    | none => .error (.keyError r)
    | some (kpt, keypoints1) =>
      match kpt.kptData with
      | none => .error (.keyError "value")
      | some (ow, oh, v) =>
        match v.keypointlabels with
        | [] => .error .indexError
        | node :: _ =>
          let x_pos := (v.x.mul ow).div100
          let y_pos := (v.y.mul oh).div100
          if x_pos.isnan || y_pos.isnan then claimKeypoints rest points keypoints1
          else claimKeypoints rest (alInsert points node ⟨x_pos, y_pos, none⟩) keypoints1

/-- The body of the `for indv_id, indv in individuals.items()` loop for one
individual: look its neighbours up in the relation map (a miss raises `KeyError`)
and claim them. -/
def processOneIndividual (relations : AList (List String)) (keypoints : AList RItem)
    (indv_id : String) : Except PErr (AList Point × AList RItem) :=
  match alLookup relations indv_id with
  | none => .error (.keyError indv_id)
  | some rels => claimKeypoints rels [] keypoints

/-- The `for indv_id, indv in individuals.items()` loop: one instance per individual
whose claimed point set is non-empty, threading the shrinking keypoint pool. -/
def processIndividuals (relations : AList (List String)) (skeleton : Skeleton) :
    List (String × RItem) → List Instance → AList RItem →
    Except PErr (List Instance × AList RItem)
  | [], instances, keypoints => .ok (instances, keypoints)
  | (indv_id, _) :: rest, instances, keypoints =>
    match processOneIndividual relations keypoints indv_id with
    | .error e => .error e
    | .ok (points, keypoints1) =>
      if points.length > 0 then
        processIndividuals relations skeleton rest (instances ++ [⟨points, skeleton⟩]) keypoints1
      else processIndividuals relations skeleton rest instances keypoints1

/-- The leftover-keypoint loop: every keypoint still in the pool is converted (with
no NaN check in the source) and stored with explicit `visible=True`. -/
def leftoverLoop : List (String × RItem) → AList Point → Except PErr (AList Point)
  | [], points => .ok points
  | (_, kpt) :: rest, points =>
    match kpt.kptData with
    | none => .error (.keyError "value")
    | some (ow, oh, v) =>
      match v.keypointlabels with
      | [] => .error .indexError
      | node :: _ =>
        leftoverLoop rest
          (alInsert points node ⟨(v.x.mul ow).div100, (v.y.mul oh).div100, some true⟩)

/-- The body of the `try` block of `task_to_labeled_frame`, given `task[key]`. -/
def parseTaskInner (sets : List AnnSet) (task : Task) (skeleton : Skeleton) :
    Except PErr LabeledFrame :=
  match sets with
  | [] => .error .indexError
  | first :: _ =>
    let to_parse := first.result
    match filter_and_index to_parse "rectanglelabels" with
    | .error e => .error e
    | .ok individuals =>
      match filter_and_index to_parse "keypointlabels" with
      | .error e => .error e
      | .ok keypoints =>
        let relations := build_relation_map to_parse
        match processIndividuals relations skeleton individuals [] keypoints with
        | .error e => .error e
        | .ok (instances, keypoints1) =>
          match leftoverLoop keypoints1 [] with
          | .error e => .error e
          | .ok points =>
            let instances2 :=
              if points.length > 0 then instances ++ [⟨points, skeleton⟩] else instances
            match video_from_task task with
            | .error e => .error e
            | .ok (video, frame_idx) => .ok ⟨video, frame_idx, instances2⟩

/-- `task_to_labeled_frame`: the multiple-annotation warning's `task[key]` access
happens before the `try` block (an absent key raises an unwrapped `KeyError`);
everything inside the `try` is re-raised wrapped with the task's identifier
(`"??"` when the task has no `id`). -/
def task_to_labeled_frame (task : Task) (skeleton : Skeleton) (key : AKey) :
    Except PErr LabeledFrame :=
  match task.get key with
  | none => .error (.keyError key.str)
  | some sets =>
    match parseTaskInner sets task skeleton with
    | .ok lf => .ok lf
    | .error e => .error (.wrapped ((task.id).getD "??") e)

/-- The key-selection of `parse_tasks`: prefer `annotations`, fall back to
`completions`, otherwise raise `ValueError`. -/
def selectKey (task : Task) : Except PErr AKey :=
  if task.annSets.isSome then .ok .annKey
  else if task.completions.isSome then .ok .compKey
  else .error .missingAnn

/-- The `for entry in tasks` loop of `parse_tasks`. -/
def parseTasksLoop (skeleton : Skeleton) :
    List Task → List LabeledFrame → Except PErr (List LabeledFrame)
  | [], frames => .ok frames
  | task :: rest, frames =>
    match selectKey task with
    | .error e => .error e
    | .ok key =>
      match task_to_labeled_frame task skeleton key with
      | .error e => .error e
      | .ok frame => parseTasksLoop skeleton rest (frames ++ [frame])

/-- `parse_tasks`: parse every task in order into one `Labels` collection. -/
def parse_tasks (tasks : List Task) (skeleton : Skeleton) : Except PErr Labels :=
  match parseTasksLoop skeleton tasks [] with
  | .error e => .error e
  | .ok frames => .ok ⟨frames⟩

/-- Modelled from the spec / source: `uuid.uuid4()` yields a fresh unique id per
call; successive draws are modelled by a counter mapped to pairwise-distinct
strings. -/
def freshId (n : Nat) : String := String.mk (List.replicate (n + 1) 'u')

/-- The `rectanglelabels` item `write_labels` emits for one instance. -/
def rectItem (width height : Nat) (inst_id : String) : RItem :=
  .rect inst_id (.num (width : ℚ)) (.num (height : ℚ)) (.num 0)
    ⟨.num 0, .num 0, .num (width : ℚ), .num (height : ℚ), .num 0, ["instance_class"]⟩

/-- The `keypointlabels` item `write_labels` emits for one point. -/
def kptItem (width height : Nat) (point_id node : String) (px py : JNum) : RItem :=
  .kpt point_id (.num (width : ℚ)) (.num (height : ℚ)) (.num 0) ⟨px, py, [node]⟩

/-- The `for node, point in instance.points.items()` loop of `write_labels`:
emit one keypoint item at percentage coordinates and one relation edge to the
owning individual per point. -/
def writePointsLoop (width height : Nat) (inst_id : String) :
    List (String × Point) → List RItem → Nat → Except PErr (List RItem × Nat)
  | [], items, m => .ok (items, m)
  | (node, pt) :: rest, items, m =>
    match pt.x.divBy (width : ℚ), pt.y.divBy (height : ℚ) with
    | some vx, some vy =>
      writePointsLoop width height inst_id rest
        (items ++ [kptItem width height (freshId m) node vx.mul100 vy.mul100,
                   .rel (freshId m) inst_id "right"]) (m + 1)
    | _, _ => .error .zeroDivision

/-- The per-instance body of the writer's loop: one rectangle item, then the
point/relation pairs. -/
def write_instance (width height : Nat) (inst : Instance) (n : Nat) :
    Except PErr (List RItem × Nat) :=
  writePointsLoop width height (freshId n) inst.points [rectItem width height (freshId n)] (n + 1)

/-- The `for instance in frame.instances` loop of `write_labels`. -/
def writeInstancesLoop (width height : Nat) :
    List Instance → List RItem → Nat → Except PErr (List RItem × Nat)
  | [], items, m => .ok (items, m)
  | inst :: rest, items, m =>
    match write_instance width height inst m with
    | .error e => .error e
    | .ok (newItems, m1) => writeInstancesLoop width height rest (items ++ newItems) m1

/-- The image dimensions `write_labels` uses for a frame: `(height, width)` from
the video shape (`shape[1]`, `shape[2]`), defaulting to 100 by 100 when the video
has no shape. -/
def frameDims (frame : LabeledFrame) : Nat × Nat :=
  match frame.video.shape with
  | some s => (s.2.1, s.2.2.1)
  | none => (100, 100)

/-- The per-frame body of `write_labels`: one task record with the flattened
result list and the `meta.video` block. -/
def write_frame (frame : LabeledFrame) (n : Nat) : Except PErr (Task × Nat) :=
  match writeInstancesLoop (frameDims frame).2 (frameDims frame).1 frame.instances [] n with
  | .error e => .error e
  | .ok (frame_annots, n1) =>
    .ok (⟨none, some [⟨frame_annots, false, false, 0, 1⟩], none,
          some ⟨frame.video.filename, frame.frame_idx, frame.video.shape⟩⟩, n1)

/-- The `for frame in labels.labeled_frames` loop of `write_labels`. -/
def writeTasksLoop : List LabeledFrame → List Task → Nat → Except PErr (List Task)
  | [], tasks, _ => .ok tasks
  | frame :: rest, tasks, n =>
    match write_frame frame n with
    | .error e => .error e
    | .ok (t, n1) => writeTasksLoop rest (tasks ++ [t]) n1

/-- `write_labels`: serialize a `Labels` collection into Label Studio task records. -/
def write_labels (labels : Labels) : Except PErr (List Task) :=
  writeTasksLoop labels.labeled_frames [] 0

/-! ### Helper definitions used by the specifications -/

/-- The ids of a list of result items, when every item has one, paired with the
items. -/
def itemsPairs : List RItem → Option (List (String × RItem))
  | [] => some []
  | it :: rest =>
    match it.idOpt, itemsPairs rest with
    | some i, some ps => some ((i, it) :: ps)
    | _, _ => none

/-- The neighbour list an edge list contributes to the key `x`, in processing
order. -/
def relContrib (x : String) : List (String × String) → List String
  | [] => []
  | (f, t) :: rest =>
    ((if f = x then [t] else []) ++ if t = x then [f] else []) ++ relContrib x rest

/-- Whether `x` occurs as an endpoint of some edge. -/
def relTouches (x : String) : List (String × String) → Bool
  | [] => false
  | (f, t) :: rest => f == x || t == x || relTouches x rest

/-- Whether the keypoint stored in the pool under key `r` converts to a coordinate
that is NaN in some axis (`false` when the key or the fields are absent). -/
def kptNaNAt (pool : AList RItem) (r : String) : Bool :=
  match alLookup pool r with
  | some itr =>
    match itr.kptData with
    | some (ow, oh, v) => ((v.x.mul ow).div100).isnan || ((v.y.mul oh).div100).isnan
    | none => false
  | none => false

/-- The node label of the keypoint stored in the pool under key `r`. -/
def labelAt (pool : AList RItem) (r : String) : String :=
  match alLookup pool r with
  | some itr =>
    match itr.kptData with
    | some (_, _, v) => v.keypointlabels.headD ""
    | none => ""
  | none => ""

/-- The converted point of the keypoint stored in the pool under key `r`, using
that keypoint's own recorded `original_width`/`original_height`. -/
def convPointAt (pool : AList RItem) (r : String) : Point :=
  match alLookup pool r with
  | some itr =>
    match itr.kptData with
    | some (ow, oh, v) => ⟨(v.x.mul ow).div100, (v.y.mul oh).div100, none⟩
    | none => ⟨.nan, .nan, none⟩
  | none => ⟨.nan, .nan, none⟩

/-- A point is fully annotated when neither coordinate is NaN. -/
def Point.nonNaN (p : Point) : Bool := !p.x.isnan && !p.y.isnan

/-- An instance is well formed for round-tripping: its node names are distinct and
it carries at least one fully-annotated point. -/
def instOK (inst : Instance) : Prop :=
  (alKeys inst.points).Nodup ∧ ∃ np ∈ inst.points, Point.nonNaN np.2 = true

/-- The named coordinates of the points of an instance, in order. -/
def coordsOf (inst : Instance) : List (String × JNum × JNum) :=
  inst.points.map fun np => (np.1, np.2.x, np.2.y)

/-- The named coordinates of the fully-annotated points of an instance, in order. -/
def nonNaNCoordsOf (inst : Instance) : List (String × JNum × JNum) :=
  (inst.points.filter fun np => Point.nonNaN np.2).map fun np => (np.1, np.2.x, np.2.y)

/-- What the writer emits for one point: its fresh id, node label and percentage
coordinates. -/
structure PtPlan where
  pid : String
  node : String
  px : JNum
  py : JNum
deriving DecidableEq

/-- What the writer emits for one instance: its fresh id and its point plans. -/
structure InstPlan where
  iid : String
  pts : List PtPlan
deriving DecidableEq

/-- The keypoint/relation item pairs of one instance's points. -/
def renderPts (width height : Nat) (inst_id : String) : List PtPlan → List RItem
  | [] => []
  | q :: rest =>
    kptItem width height q.pid q.node q.px q.py :: .rel q.pid inst_id "right" ::
      renderPts width height inst_id rest

/-- The result items of one instance: its rectangle, then its point items. -/
def renderInst (width height : Nat) (p : InstPlan) : List RItem :=
  rectItem width height p.iid :: renderPts width height p.iid p.pts

/-- The whole result list of one frame. -/
def renderPlan (width height : Nat) : List InstPlan → List RItem
  | [] => []
  | p :: rest => renderInst width height p ++ renderPlan width height rest

/-- Every id of a plan, in generation order. -/
def planIds : List InstPlan → List String
  | [] => []
  | p :: rest => p.iid :: (p.pts.map PtPlan.pid ++ planIds rest)

/-- The relation edges of a plan. -/
def planEdges : List InstPlan → List (String × String)
  | [] => []
  | p :: rest => p.pts.map (fun q => (q.pid, p.iid)) ++ planEdges rest

/-- The keypoint pool the reader builds for a plan. -/
def planPool (width height : Nat) : List InstPlan → AList RItem
  | [] => []
  | p :: rest =>
    p.pts.map (fun q => (q.pid, kptItem width height q.pid q.node q.px q.py)) ++
      planPool width height rest

/-- The number of ids a plan consumes. -/
def planSize : List InstPlan → Nat
  | [] => 0
  | p :: rest => 1 + p.pts.length + planSize rest

/-- The point the reader reconstructs from one written point. -/
def readPt (width height : Nat) (q : PtPlan) : Point :=
  ⟨(q.px.mul (.num (width : ℚ))).div100, (q.py.mul (.num (height : ℚ))).div100, none⟩

/-- The instance the reader reconstructs from one written instance. -/
def readInst (width height : Nat) (skel : Skeleton) (p : InstPlan) : Instance :=
  ⟨(p.pts.filter fun q => !(q.px.isnan || q.py.isnan)).map
      (fun q => (q.node, readPt width height q)), skel⟩

/-- The writer's percentage conversion of one coordinate. -/
def divMul100 (x : JNum) (d : ℚ) : Option JNum := (x.divBy d).map JNum.mul100

/-- The keypoint items of a plan, in order. -/
def planKptList (width height : Nat) : List InstPlan → List RItem
  | [] => []
  | p :: rest =>
    p.pts.map (fun q => kptItem width height q.pid q.node q.px q.py) ++
      planKptList width height rest

/-- The keypoint ids of a plan, in order. -/
def planPidList : List InstPlan → List String
  | [] => []
  | p :: rest => p.pts.map PtPlan.pid ++ planPidList rest

/-- Round-trip relation between a re-read instance and the original: the re-read
named coordinates are exactly the original's fully-annotated named coordinates. -/
def instRel (i2 i : Instance) : Prop := coordsOf i2 = nonNaNCoordsOf i

/-- Round-trip relation between a re-read frame and the original. -/
def frameRel (f2 f : LabeledFrame) : Prop :=
  f2.video = f.video ∧ f2.frame_idx = f.frame_idx ∧
  f2.instances.length = f.instances.length ∧
  List.Forall₂ instRel f2.instances f.instances

/-- One written point matches one model point: same node, and the percentage
conversions succeeded. -/
def ptMatches (width height : Nat) (q : PtPlan) (np : String × Point) : Prop :=
  q.node = np.1 ∧ divMul100 np.2.x (width : ℚ) = some q.px ∧
    divMul100 np.2.y (height : ℚ) = some q.py

/-- One written instance matches one model instance pointwise. -/
def instMatches (width height : Nat) (p : InstPlan) (inst : Instance) : Prop :=
  List.Forall₂ (ptMatches width height) p.pts inst.points

/-! ### Concrete inputs used in example theorems -/

/-- A two-node skeleton. -/
def exSkel : Skeleton := ⟨["head", "tail"]⟩

/-- A rectangle item as the external tool would emit it for a 100 by 100 image. -/
def exRect (i : String) : RItem :=
  .rect i (.num 100) (.num 100) (.num 0)
    ⟨.num 0, .num 0, .num 100, .num 100, .num 0, ["instance_class"]⟩

/-- A keypoint item on a 100 by 100 image. -/
def exKpt (i lbl : String) (x y : JNum) : RItem :=
  .kpt i (.num 100) (.num 100) (.num 0) ⟨x, y, [lbl]⟩

/-- A task with one annotation set holding the given result items. -/
def exTask (items : List RItem) : Task :=
  ⟨some "t1", some [⟨items, false, false, 0, 1⟩], none, some ⟨"v.mp4", 0, none⟩⟩

/-- Items of mixed type with a duplicated keypoint id. -/
def ex6Items : List RItem :=
  [exKpt "k1" "head" (.num 1) (.num 2), exRect "r1", exKpt "k1" "tail" (.num 3) (.num 4)]

/-- A single relation edge. -/
def ex7Items : List RItem := [.rel "a" "b" "right"]

/-- A task that parses successfully. -/
def ex8Good : Task := exTask []

/-- A task with neither annotation-set key. -/
def ex8Bad : Task := ⟨some "t2", none, none, none⟩

/-- A task with an annotation set but no video metadata and no id. -/
def ex9Task : Task := ⟨none, some [⟨[], false, false, 0, 1⟩], none, none⟩

/-- Two individuals both related to the same keypoint. -/
def ex10Items : List RItem :=
  [exRect "r1", exRect "r2", exKpt "k1" "head" (.num 50) (.num 50),
   .rel "k1" "r1" "right", .rel "k1" "r2" "right"]

/-- One individual with one related keypoint. -/
def ex2Items : List RItem :=
  [exRect "r1", exKpt "k1" "head" (.num 50) (.num 50), .rel "k1" "r1" "right"]

/-- A single unclaimed keypoint. -/
def ex5Items : List RItem := [exKpt "k1" "head" (.num 10) (.num 20)]

/-- One individual with two connected keypoints that carry the same label. -/
def ex4Items : List RItem :=
  [exRect "r1", exKpt "k1" "head" (.num 10) (.num 10), exKpt "k2" "head" (.num 20) (.num 20),
   .rel "k1" "r1" "right", .rel "k2" "r1" "right"]

/-- The keypoint pool of `ex4Items`. -/
def ex4Pool : AList RItem :=
  [("k1", exKpt "k1" "head" (.num 10) (.num 10)), ("k2", exKpt "k2" "head" (.num 20) (.num 20))]

/-- The keypoint pool of `ex2Items`. -/
def ex2Pool : AList RItem := [("k1", exKpt "k1" "head" (.num 50) (.num 50))]

/-- A collection whose single instance has only a NaN point. -/
def exC1Labels : Labels :=
  ⟨[⟨⟨"v.mp4", some (1, 2, 2, 1)⟩, 0, [⟨[("head", ⟨.nan, .nan, none⟩)], exSkel⟩]⟩]⟩

/-- The task `write_labels` produces for `exC1Labels`. -/
def exC1Task : Task :=
  ⟨none, some [⟨[rectItem 2 2 (freshId 0), kptItem 2 2 (freshId 1) "head" .nan .nan,
      .rel (freshId 1) (freshId 0) "right"], false, false, 0, 1⟩], none,
   some ⟨"v.mp4", 0, some (1, 2, 2, 1)⟩⟩

/-- A well-formed collection: one frame of a 200 by 100 video with one
two-point instance. -/
def exC1Good : Labels :=
  ⟨[⟨⟨"v.mp4", some (1, 100, 200, 1)⟩, 3,
    [⟨[("head", ⟨.num 100, .num 50, none⟩), ("tail", ⟨.num 50, .num 25, none⟩)],
      exSkel⟩]⟩]⟩

/-- The task `write_labels` produces for `exC1Good`; the percentage coordinates
are kept as the unreduced arithmetic expressions the writer computes
(`100/200*100 = 50` and so on). -/
def exC1GoodTask : Task :=
  ⟨none, some [⟨[rectItem 200 100 (freshId 0),
      kptItem 200 100 (freshId 1) "head" (.num (100 / 200 * 100))
        (.num (50 / 100 * 100)),
      .rel (freshId 1) (freshId 0) "right",
      kptItem 200 100 (freshId 2) "tail" (.num (50 / 200 * 100))
        (.num (25 / 100 * 100)),
      .rel (freshId 2) (freshId 0) "right"], false, false, 0, 1⟩], none,
   some ⟨"v.mp4", 3, some (1, 100, 200, 1)⟩⟩

/-! ### Lemmas about the dict model -/

theorem alLookup_alInsert_self {α : Type} (m : AList α) (k : String) (v : α) :
    alLookup (alInsert m k v) k = some v := by
  induction m with
  | nil => simp [alInsert, alLookup]
  | cons kv rest ih =>
    obtain ⟨k0, v0⟩ := kv
    by_cases h : k0 = k
    · subst h; simp [alInsert, alLookup]
    · simp [alInsert, alLookup, h, ih]

theorem alLookup_alInsert_ne {α : Type} (m : AList α) (k : String) (v : α) (k' : String)
    (h : k' ≠ k) : alLookup (alInsert m k v) k' = alLookup m k' := by
  have hks : ¬ k = k' := fun hh => h hh.symm
  induction m with
  | nil => simp [alInsert, alLookup, hks]
  | cons kv rest ih =>
    obtain ⟨k0, v0⟩ := kv
    by_cases h0 : k0 = k
    · subst h0; simp [alInsert, alLookup, hks]
    · by_cases h1 : k0 = k'
      · subst h1; simp [alInsert, alLookup, h0]
      · simp [alInsert, alLookup, h0, h1, ih]

theorem alLookup_eq_none_iff {α : Type} (m : AList α) (k : String) :
    alLookup m k = none ↔ k ∉ alKeys m := by
  induction m with
  | nil => simp [alLookup, alKeys]
  | cons kv rest ih =>
    obtain ⟨k0, v0⟩ := kv
    by_cases h : k0 = k
    · subst h; simp [alLookup, alKeys]
    · simp [alLookup, alKeys, h, ih, Ne.symm h]

theorem alLookup_isSome_iff {α : Type} (m : AList α) (k : String) :
    (alLookup m k).isSome ↔ k ∈ alKeys m := by
  constructor
  · intro h
    by_contra hk
    rw [(alLookup_eq_none_iff m k).mpr hk] at h
    simp at h
  · intro h
    cases ho : alLookup m k with
    | none => exact absurd h ((alLookup_eq_none_iff m k).mp ho)
    | some v => simp

theorem alInsert_of_not_mem {α : Type} (m : AList α) (k : String) (v : α)
    (h : k ∉ alKeys m) : alInsert m k v = m ++ [(k, v)] := by
  induction m with
  | nil => simp [alInsert]
  | cons kv rest ih =>
    obtain ⟨k0, v0⟩ := kv
    simp only [alKeys, List.map_cons, List.mem_cons] at h
    push_neg at h
    simp [alInsert, h.1.symm, ih (by simpa [alKeys] using h.2)]

theorem alKeys_alInsert_of_mem {α : Type} (m : AList α) (k : String) (v : α)
    (h : k ∈ alKeys m) : alKeys (alInsert m k v) = alKeys m := by
  induction m with
  | nil => simp [alKeys] at h
  | cons kv rest ih =>
    obtain ⟨k0, v0⟩ := kv
    by_cases h0 : k0 = k
    · subst h0; simp [alInsert, alKeys]
    · simp only [alKeys, List.map_cons, List.mem_cons] at h
      rcases h with h | h
      · exact absurd h.symm h0
      · have := ih (show k ∈ alKeys rest from h)
        simp only [alInsert, h0, if_false, alKeys, List.map_cons]
        rw [show List.map Prod.fst (alInsert rest k v) = alKeys rest from this]
        rfl

theorem alKeys_alInsert_nodup {α : Type} (m : AList α) (k : String) (v : α)
    (h : (alKeys m).Nodup) : (alKeys (alInsert m k v)).Nodup := by
  by_cases hm : k ∈ alKeys m
  · rw [alKeys_alInsert_of_mem m k v hm]; exact h
  · rw [alInsert_of_not_mem m k v hm]
    have hkeys : alKeys (m ++ [(k, v)]) = alKeys m ++ [k] := by simp [alKeys]
    rw [hkeys, List.nodup_append]
    exact ⟨h, List.nodup_singleton _,
      fun a ha hak => hm ((List.mem_singleton.mp hak) ▸ ha)⟩

theorem alPop_eq_none_iff {α : Type} (m : AList α) (k : String) :
    alPop m k = none ↔ k ∉ alKeys m := by
  induction m with
  | nil => simp [alPop, alKeys]
  | cons kv rest ih =>
    obtain ⟨k0, v0⟩ := kv
    by_cases h : k0 = k
    · subst h; simp [alPop, alKeys]
    · simp only [alPop, h, if_false]
      rcases hrest : alPop rest k with _ | ⟨w, rest2⟩
      · have := ih.mp hrest
        simp only [alKeys, List.map_cons]
        simp [Ne.symm h]
        intro x hx
        exact this (List.mem_map_of_mem Prod.fst hx)
      · have hne : alPop rest k ≠ none := by simp [hrest]
        have hmem : k ∈ alKeys rest := by
          by_contra hk
          exact hne (ih.mpr hk)
        simp only [alKeys, List.map_cons] at hmem ⊢
        simp [hmem]

theorem alPop_sublist {α : Type} (m : AList α) (k : String) (v : α) (m' : AList α)
    (h : alPop m k = some (v, m')) : m'.Sublist m := by
  induction m generalizing m' with
  | nil => simp [alPop] at h
  | cons kv rest ih =>
    obtain ⟨k0, v0⟩ := kv
    by_cases h0 : k0 = k
    · subst h0
      simp only [alPop, if_true] at h
      cases h
      exact List.sublist_cons_self _ _
    · simp only [alPop, h0, if_false] at h
      rcases hrest : alPop rest k with _ | ⟨w, rest2⟩
      · rw [hrest] at h; cases h
      · rw [hrest] at h
        cases h
        exact (ih rest2 hrest).cons₂ _

theorem alPop_lookup {α : Type} (m : AList α) (k : String) (v : α) (m' : AList α)
    (h : alPop m k = some (v, m')) : alLookup m k = some v := by
  induction m generalizing m' with
  | nil => simp [alPop] at h
  | cons kv rest ih =>
    obtain ⟨k0, v0⟩ := kv
    by_cases h0 : k0 = k
    · subst h0
      simp only [alPop, if_true] at h
      cases h
      simp [alLookup]
    · simp only [alPop, h0, if_false] at h
      rcases hrest : alPop rest k with _ | ⟨w, rest2⟩
      · rw [hrest] at h; cases h
      · rw [hrest] at h
        cases h
        simpa [alLookup, h0] using ih rest2 hrest

theorem alLookup_alPop_ne {α : Type} (m : AList α) (k : String) (v : α) (m' : AList α)
    (h : alPop m k = some (v, m')) (k' : String) (hne : k' ≠ k) :
    alLookup m' k' = alLookup m k' := by
  induction m generalizing m' with
  | nil => simp [alPop] at h
  | cons kv rest ih =>
    obtain ⟨k0, v0⟩ := kv
    by_cases h0 : k0 = k
    · subst h0
      simp only [alPop, if_true] at h
      cases h
      have hne0 : ¬ k0 = k' := fun hh => hne hh.symm
      simp [alLookup, hne0]
    · simp only [alPop, h0, if_false] at h
      rcases hrest : alPop rest k with _ | ⟨w, rest2⟩
      · rw [hrest] at h; cases h
      · rw [hrest] at h
        cases h
        by_cases h1 : k0 = k'
        · simp [alLookup, h1]
        · simpa [alLookup, h1] using ih rest2 hrest

theorem alPop_filter {α : Type} (m : AList α) (k : String) (v : α) (m' : AList α)
    (hnd : (alKeys m).Nodup) (h : alPop m k = some (v, m')) :
    m' = m.filter fun kv => decide (kv.1 ≠ k) := by
  induction m generalizing m' with
  | nil => simp [alPop] at h
  | cons kv rest ih =>
    obtain ⟨k0, v0⟩ := kv
    simp only [alKeys, List.map_cons, List.nodup_cons] at hnd
    by_cases h0 : k0 = k
    · subst h0
      simp only [alPop, if_true] at h
      cases h
      have hall : ∀ p ∈ rest, (fun p : String × α => decide (p.1 ≠ k0)) p = true := by
        intro p hp
        simp only [decide_eq_true_iff]
        intro hk
        exact hnd.1 (hk ▸ (List.mem_map_of_mem Prod.fst hp))
      have hself : List.filter (fun p : String × α => decide (p.1 ≠ k0)) rest = rest :=
        List.filter_eq_self.mpr hall
      simp only [decide_not] at hself
      simp [List.filter_cons, hself]
    · simp only [alPop, h0, if_false] at h
      rcases hrest : alPop rest k with _ | ⟨w, rest2⟩
      · rw [hrest] at h; cases h
      · rw [hrest] at h
        cases h
        have hr := ih rest2 hnd.2 hrest
        simp only [List.filter_cons]
        rw [if_pos (by simp [h0] : decide ((k0, v0).1 ≠ k) = true)]
        rw [← hr]

theorem alPop_not_mem_keys {α : Type} (m : AList α) (k : String) (v : α) (m' : AList α)
    (hnd : (alKeys m).Nodup) (h : alPop m k = some (v, m')) : k ∉ alKeys m' := by
  rw [alPop_filter m k v m' hnd h]
  intro hk
  simp only [alKeys, List.mem_map] at hk
  obtain ⟨kv, hkv, hfst⟩ := hk
  have := List.of_mem_filter hkv
  simp only [decide_eq_true_iff] at this
  exact this hfst

/-! ### Lemmas about filter_and_index -/

theorem indexLoop_cons_some (it : RItem) (rest : List RItem) (acc : AList RItem)
    (j : String) (hid : it.idOpt = some j) :
    indexLoop (it :: rest) acc = indexLoop rest (alInsert acc j it) := by
  conv_lhs => unfold indexLoop
  rw [hid]

theorem indexLoop_lookup (its : List RItem) (acc : AList RItem)
    (h : ∀ it ∈ its, it.idOpt ≠ none) :
    ∃ m, indexLoop its acc = .ok m ∧
      ∀ i, alLookup m i =
        (its.reverse.find? fun d => d.idOpt == some i).or (alLookup acc i) := by
  induction its generalizing acc with
  | nil => exact ⟨acc, rfl, fun i => by simp⟩
  | cons it rest ih =>
    rcases hid : it.idOpt with _ | j
    · exact absurd hid (h it (by simp))
    · obtain ⟨m, hm, hl⟩ := ih (alInsert acc j it) (fun d hd => h d (by simp [hd]))
      refine ⟨m, by rw [indexLoop_cons_some it rest acc j hid]; exact hm, fun i => ?_⟩
      have hkey : alLookup (alInsert acc j it) i =
          (List.find? (fun d => d.idOpt == some i) [it]).or (alLookup acc i) := by
        by_cases hji : j = i
        · subst hji
          rw [alLookup_alInsert_self]
          have hfi : List.find? (fun d => d.idOpt == some j) [it] = some it := by
            simp [List.find?, hid]
          rw [hfi]
          rfl
        · rw [alLookup_alInsert_ne acc j it i (fun hh => hji hh.symm)]
          have hb : (it.idOpt == some i) = false := by
            rw [hid]
            simp [hji]
          have hfi : List.find? (fun d => d.idOpt == some i) [it] = none := by
            simp [List.find?, hb]
          rw [hfi, Option.none_or]
      rw [hl i, List.reverse_cons, List.find?_append, Option.or_assoc, hkey]

theorem indexLoop_nodup (its : List RItem) (acc : AList RItem)
    (h : (alKeys acc).Nodup) :
    ∀ m, indexLoop its acc = .ok m → (alKeys m).Nodup := by
  induction its generalizing acc with
  | nil =>
    intro m hm
    simp only [indexLoop] at hm
    cases hm
    exact h
  | cons it rest ih =>
    intro m hm
    rcases hid : it.idOpt with _ | j
    · simp [indexLoop, hid] at hm
    · rw [indexLoop_cons_some it rest acc j hid] at hm
      exact ih (alInsert acc j it) (alKeys_alInsert_nodup acc j it h) m hm

theorem filter_and_index_nodup (items : List RItem) (t : String) (m : AList RItem)
    (h : filter_and_index items t = .ok m) : (alKeys m).Nodup :=
  indexLoop_nodup _ [] (by simp [alKeys]) m h

theorem indexLoop_pairs (its : List RItem) (ps : List (String × RItem)) (acc : AList RItem)
    (hps : itemsPairs its = some ps)
    (hnd : (alKeys acc ++ ps.map Prod.fst).Nodup) :
    indexLoop its acc = .ok (acc ++ ps) := by
  induction its generalizing ps acc with
  | nil =>
    simp only [itemsPairs] at hps
    cases hps
    simp [indexLoop]
  | cons it rest ih =>
    rcases hid : it.idOpt with _ | j <;> rcases hrest : itemsPairs rest with _ | ps'
    · simp [itemsPairs, hid, hrest] at hps
    · simp [itemsPairs, hid, hrest] at hps
    · simp [itemsPairs, hid, hrest] at hps
    · simp only [itemsPairs, hid, hrest] at hps
      cases hps
      have hj : j ∉ alKeys acc := by
        intro hmem
        rw [List.nodup_append] at hnd
        exact hnd.2.2 hmem (by simp)
      rw [indexLoop_cons_some it rest acc j hid]
      rw [alInsert_of_not_mem acc j it hj]
      have hkeys : alKeys (acc ++ [(j, it)]) = alKeys acc ++ [j] := by simp [alKeys]
      have hnd' : (alKeys (acc ++ [(j, it)]) ++ ps'.map Prod.fst).Nodup := by
        rw [hkeys, List.append_assoc, List.singleton_append]
        simpa using hnd
      rw [ih ps' (acc ++ [(j, it)]) hrest hnd']
      simp

/-! ### Lemmas about build_relation_map -/

theorem alLookup_addRelEdge_self (m : AList (List String)) (a b : String) :
    alLookup (addRelEdge m a b) a = some ((alLookup m a).getD [] ++ [b]) :=
  alLookup_alInsert_self m a _

theorem alLookup_addRelEdge_ne (m : AList (List String)) (a b x : String) (h : x ≠ a) :
    alLookup (addRelEdge m a b) x = alLookup m x :=
  alLookup_alInsert_ne m a _ x h

theorem buildRelLoop_lookup (E : List (String × String)) (m : AList (List String))
    (x : String) :
    alLookup (buildRelLoop E m) x =
      if (alLookup m x).isSome || relTouches x E then
        some ((alLookup m x).getD [] ++ relContrib x E)
      else none := by
  induction E generalizing m with
  | nil =>
    simp only [buildRelLoop, relContrib, relTouches, Bool.or_false, List.append_nil]
    cases h : alLookup m x <;> simp [h]
  | cons ft rest ih =>
    obtain ⟨f, t⟩ := ft
    simp only [buildRelLoop]
    rw [ih]
    by_cases hf : x = f <;> by_cases ht : x = t
    · subst hf
      subst ht
      have h1 := alLookup_addRelEdge_self m x x
      have h2 := alLookup_addRelEdge_self (addRelEdge m x x) x x
      rw [h1] at h2
      rw [h2]
      simp [relContrib, relTouches, List.append_assoc]
    · subst hf
      have h1 := alLookup_addRelEdge_self m x t
      have h2 : alLookup (addRelEdge (addRelEdge m x t) t x) x =
          some ((alLookup m x).getD [] ++ [t]) := by
        rw [alLookup_addRelEdge_ne _ t x x ht, h1]
      rw [h2]
      have htx : ¬ t = x := fun hh => ht hh.symm
      simp [relContrib, relTouches, ht, htx, List.append_assoc]
    · subst ht
      have h1 : alLookup (addRelEdge m f x) x = alLookup m x :=
        alLookup_addRelEdge_ne m f x x hf
      have h2 := alLookup_addRelEdge_self (addRelEdge m f x) x f
      rw [h1] at h2
      rw [h2]
      have hfx : ¬ f = x := fun hh => hf hh.symm
      simp [relContrib, relTouches, hf, hfx, List.append_assoc]
    · have h2 : alLookup (addRelEdge (addRelEdge m f t) t f) x = alLookup m x := by
        rw [alLookup_addRelEdge_ne _ t f x ht, alLookup_addRelEdge_ne m f t x hf]
      rw [h2]
      have hfx : ¬ f = x := fun hh => hf hh.symm
      have htx : ¬ t = x := fun hh => ht hh.symm
      simp [relContrib, relTouches, hf, ht, hfx, htx]

theorem build_relation_map_lookup (items : List RItem) (x : String) :
    alLookup (build_relation_map items) x =
      if relTouches x (relPairs items) then some (relContrib x (relPairs items))
      else none := by
  unfold build_relation_map
  rw [buildRelLoop_lookup]
  simp [alLookup]

/-! ### relPairs, relTouches, relContrib membership -/

theorem relPairs_mem_of (items : List RItem) (f t d : String)
    (h : RItem.rel f t d ∈ items) : (f, t) ∈ relPairs items := by
  induction items with
  | nil => simp at h
  | cons it rest ih =>
    rcases List.mem_cons.mp h with heq | hmem
    · rw [← heq]
      simp [relPairs]
    · cases it with
      | rect a b c dd e => simpa [relPairs] using ih hmem
      | kpt a b c dd e => simpa [relPairs] using ih hmem
      | rel a b c => simp [relPairs, ih hmem]

theorem relPairs_mem_rev (items : List RItem) (f t : String)
    (h : (f, t) ∈ relPairs items) : ∃ d, RItem.rel f t d ∈ items := by
  induction items with
  | nil => simp [relPairs] at h
  | cons it rest ih =>
    cases it with
    | rect a b c dd e =>
      obtain ⟨d, hd⟩ := ih (by simpa [relPairs] using h)
      exact ⟨d, by simp [hd]⟩
    | kpt a b c dd e =>
      obtain ⟨d, hd⟩ := ih (by simpa [relPairs] using h)
      exact ⟨d, by simp [hd]⟩
    | rel a b c =>
      simp only [relPairs, List.mem_cons] at h
      rcases h with h | h
      · cases h
        exact ⟨c, by simp⟩
      · obtain ⟨d, hd⟩ := ih h
        exact ⟨d, by simp [hd]⟩

theorem relTouches_true_of_mem (E : List (String × String)) (p : String × String)
    (hp : p ∈ E) (x : String) (h : p.1 = x ∨ p.2 = x) : relTouches x E = true := by
  induction E with
  | nil => simp at hp
  | cons q rest ih =>
    obtain ⟨f, t⟩ := q
    rcases List.mem_cons.mp hp with heq | hmem
    · subst heq
      rcases h with h | h <;> simp at h <;> simp [relTouches, h]
    · simp [relTouches, ih hmem]

theorem relTouches_exists (E : List (String × String)) (x : String)
    (h : relTouches x E = true) : ∃ p ∈ E, p.1 = x ∨ p.2 = x := by
  induction E with
  | nil => simp [relTouches] at h
  | cons q rest ih =>
    obtain ⟨f, t⟩ := q
    simp only [relTouches, Bool.or_eq_true, beq_iff_eq] at h
    rcases h with (h | h) | h
    · exact ⟨(f, t), by simp, Or.inl h⟩
    · exact ⟨(f, t), by simp, Or.inr h⟩
    · obtain ⟨p, hp, hx⟩ := ih h
      exact ⟨p, by simp [hp], hx⟩

theorem mem_relContrib_to (E : List (String × String)) (f t : String)
    (h : (f, t) ∈ E) : t ∈ relContrib f E := by
  induction E with
  | nil => simp at h
  | cons q rest ih =>
    obtain ⟨a, b⟩ := q
    rcases List.mem_cons.mp h with heq | hmem
    · cases heq
      simp [relContrib]
    · simp [relContrib, ih hmem]

theorem mem_relContrib_from (E : List (String × String)) (f t : String)
    (h : (f, t) ∈ E) : f ∈ relContrib t E := by
  induction E with
  | nil => simp at h
  | cons q rest ih =>
    obtain ⟨a, b⟩ := q
    rcases List.mem_cons.mp h with heq | hmem
    · cases heq
      simp [relContrib]
    · simp [relContrib, ih hmem]

/-- C7: `build_relation_map` is a symmetric adjacency map over exactly the
`relation`-typed entries: every edge `(from_id, to_id)` puts `to_id` in
`from_id`'s neighbour list and `from_id` in `to_id`'s neighbour list, and every
key of the map occurs as an endpoint of some relation entry. -/
theorem relation_map_symm (items : List RItem) :
    (∀ f t d, RItem.rel f t d ∈ items →
      t ∈ (alLookup (build_relation_map items) f).getD [] ∧
      f ∈ (alLookup (build_relation_map items) t).getD []) ∧
    (∀ x, x ∈ alKeys (build_relation_map items) →
      ∃ f t d, RItem.rel f t d ∈ items ∧ (x = f ∨ x = t)) := by
  constructor
  · intro f t d hmem
    have hpair : (f, t) ∈ relPairs items := relPairs_mem_of items f t d hmem
    constructor
    · have htch : relTouches f (relPairs items) = true :=
        relTouches_true_of_mem _ (f, t) hpair f (Or.inl rfl)
      rw [build_relation_map_lookup, if_pos htch]
      simpa using mem_relContrib_to _ f t hpair
    · have htch : relTouches t (relPairs items) = true :=
        relTouches_true_of_mem _ (f, t) hpair t (Or.inr rfl)
      rw [build_relation_map_lookup, if_pos htch]
      simpa using mem_relContrib_from _ f t hpair
  · intro x hx
    have hsome : (alLookup (build_relation_map items) x).isSome :=
      (alLookup_isSome_iff _ x).mpr hx
    rw [build_relation_map_lookup] at hsome
    by_cases htch : relTouches x (relPairs items) = true
    · obtain ⟨p, hp, hor⟩ := relTouches_exists _ x htch
      obtain ⟨f, t⟩ := p
      obtain ⟨d, hd⟩ := relPairs_mem_rev items f t hp
      rcases hor with h | h
      · exact ⟨f, t, d, hd, Or.inl h.symm⟩
      · exact ⟨f, t, d, hd, Or.inr h.symm⟩
    · rw [if_neg (by simpa using htch)] at hsome
      simp at hsome

/-- Example: the symmetry of the relation map on a concrete one-edge input. -/
theorem relation_map_symm_w :
    "b" ∈ (alLookup (build_relation_map ex7Items) "a").getD [] ∧
    "a" ∈ (alLookup (build_relation_map ex7Items) "b").getD [] :=
  (relation_map_symm ex7Items).1 "a" "b" "right" (by simp [ex7Items])

/-- C6: `filter_and_index` keeps exactly the items of the requested type, keyed by
their id, the last duplicate winning: the lookup of `i` is the last filtered item
whose id is `i` (provided the items of the requested type carry an id at all,
which every rectangle and keypoint item does). -/
theorem filter_and_index_spec (items : List RItem) (annot_type : String)
    (h : ∀ d ∈ items, d.type = annot_type → d.idOpt ≠ none) :
    ∃ m, filter_and_index items annot_type = .ok m ∧
      ∀ i, alLookup m i =
        ((items.filter fun d => d.type == annot_type).reverse.find?
          fun d => d.idOpt == some i) := by
  obtain ⟨m, hm, hl⟩ := indexLoop_lookup (items.filter fun d => d.type == annot_type) []
    (fun d hd => h d (List.mem_of_mem_filter hd) (by simpa using List.of_mem_filter hd))
  refine ⟨m, hm, fun i => ?_⟩
  rw [hl i]
  simp [alLookup]

/-- Example: on `ex6Items`, requesting keypoints keeps only the two keypoint items
and the second `"k1"` overwrites the first. -/
theorem filter_and_index_spec_w :
    ∃ m, filter_and_index ex6Items "keypointlabels" = .ok m ∧
      ∀ i, alLookup m i =
        ((ex6Items.filter fun d => d.type == "keypointlabels").reverse.find?
          fun d => d.idOpt == some i) :=
  filter_and_index_spec ex6Items "keypointlabels" (by decide)

/-- C8, part 4 helper: once the loop reaches a task with neither key, the whole
parse fails with the annotation-key error. -/
theorem parseTasksLoop_missing (skel : Skeleton) (pre : List Task) (bad : Task)
    (post : List Task)
    (hann : bad.annSets = none) (hcomp : bad.completions = none)
    (hpre : ∀ t ∈ pre, ∃ key frame, selectKey t = .ok key ∧
      task_to_labeled_frame t skel key = .ok frame) :
    ∀ frames, parseTasksLoop skel (pre ++ bad :: post) frames = .error .missingAnn := by
  induction pre with
  | nil =>
    intro frames
    simp [parseTasksLoop, selectKey, hann, hcomp]
  | cons t rest ih =>
    intro frames
    obtain ⟨key, frame, hkey, hframe⟩ := hpre t (by simp)
    rw [List.cons_append]
    simp only [parseTasksLoop, hkey, hframe]
    exact ih (fun t2 ht2 => hpre t2 (by simp [ht2])) (frames ++ [frame])

/-- C8: the collection parser prefers `annotations`, falls back to `completions`,
and when a task has neither key the whole parse fails with the missing-annotation
error (no partial result: the failure is the result of the whole call). -/
theorem missing_ann_key :
    (∀ task : Task, ∀ s, task.annSets = some s → selectKey task = .ok .annKey) ∧
    (∀ task : Task, ∀ s, task.annSets = none → task.completions = some s →
      selectKey task = .ok .compKey) ∧
    (∀ task : Task, task.annSets = none → task.completions = none →
      selectKey task = .error .missingAnn) ∧
    (∀ (pre : List Task) (bad : Task) (post : List Task) (skel : Skeleton),
      bad.annSets = none → bad.completions = none →
      (∀ t ∈ pre, ∃ key frame, selectKey t = .ok key ∧
        task_to_labeled_frame t skel key = .ok frame) →
      parse_tasks (pre ++ bad :: post) skel = .error .missingAnn) := by
  refine ⟨?_, ?_, ?_, ?_⟩
  · intro task s hs
    simp [selectKey, hs]
  · intro task s hann hs
    simp [selectKey, hann, hs]
  · intro task hann hcomp
    simp [selectKey, hann, hcomp]
  · intro pre bad post skel hann hcomp hpre
    unfold parse_tasks
    rw [parseTasksLoop_missing skel pre bad post hann hcomp hpre []]

/-- Example: a good task followed by a task with neither key fails the whole
collection parse with the missing-annotation error. -/
theorem missing_ann_key_w :
    parse_tasks [ex8Good, ex8Bad] exSkel = .error .missingAnn :=
  missing_ann_key.2.2.2 [ex8Good] ex8Bad [] exSkel rfl rfl (by
    intro t ht
    have heq : t = ex8Good := by simpa using ht
    subst heq
    exact ⟨.annKey, ⟨⟨"v.mp4", none⟩, 0, []⟩, rfl, rfl⟩)

/-- C9: whenever the annotation-set key is present, any failure of the per-task
parse surfaces as a single wrapped error carrying the task's identifier (`"??"`
when the task has no id) and chaining the inner cause. -/
theorem wrapped_task_error (task : Task) (skeleton : Skeleton) (key : AKey)
    (sets : List AnnSet) (hkey : task.get key = some sets) (e : PErr)
    (herr : task_to_labeled_frame task skeleton key = .error e) :
    ∃ cause, e = .wrapped ((task.id).getD "??") cause ∧
      parseTaskInner sets task skeleton = .error cause := by
  have heq : task_to_labeled_frame task skeleton key =
      match parseTaskInner sets task skeleton with
      | .ok lf => .ok lf
      | .error c => .error (.wrapped ((task.id).getD "??") c) := by
    unfold task_to_labeled_frame
    rw [hkey]
  rw [heq] at herr
  cases hinner : parseTaskInner sets task skeleton with
  | ok lf =>
    rw [hinner] at herr
    simp at herr
  | error c =>
    rw [hinner] at herr
    simp only [Except.error.injEq] at herr
    exact ⟨c, herr.symm, rfl⟩

/-- Example: a task with no video metadata and no id fails wrapped with `"??"`,
chaining the missing-video cause. -/
theorem wrapped_task_error_w :
    ∃ cause, (PErr.wrapped "??" PErr.missingVideo) = .wrapped ((ex9Task.id).getD "??") cause ∧
      parseTaskInner [⟨[], false, false, 0, 1⟩] ex9Task exSkel = .error cause :=
  wrapped_task_error ex9Task exSkel .annKey [⟨[], false, false, 0, 1⟩] rfl
    (PErr.wrapped "??" PErr.missingVideo) rfl

/-! ### Error paths of the individuals loop -/

theorem alInsert_mem {α : Type} (m : AList α) (k : String) (v : α) (np : String × α)
    (h : np ∈ alInsert m k v) : np ∈ m ∨ np = (k, v) := by
  induction m with
  | nil => simpa [alInsert] using h
  | cons kv rest ih =>
    obtain ⟨k0, v0⟩ := kv
    by_cases h0 : k0 = k
    · subst h0
      simp only [alInsert, if_true] at h
      rcases List.mem_cons.mp h with heq | hmem
      · exact Or.inr (by simpa using heq)
      · exact Or.inl (by simp [hmem])
    · simp only [alInsert, h0, if_false] at h
      rcases List.mem_cons.mp h with heq | hmem
      · exact Or.inl (by simp [heq])
      · rcases ih hmem with h1 | h1
        · exact Or.inl (by simp [h1])
        · exact Or.inr h1

theorem claimKeypoints_error_of_missing (rels : List String) (k : String)
    (hk : k ∈ rels) :
    ∀ (pts : AList Point) (pool : AList RItem), k ∉ alKeys pool →
      ∃ e, claimKeypoints rels pts pool = .error e := by
  induction rels with
  | nil => simp at hk
  | cons r0 rest ih =>
    intro pts pool hnot
    cases hpop : alPop pool r0 with
    | none => exact ⟨.keyError r0, by simp [claimKeypoints, hpop]⟩
    | some pr =>
      obtain ⟨kpt, pool1⟩ := pr
      have hne : k ≠ r0 := by
        intro heq
        subst heq
        have hnone := (alPop_eq_none_iff pool k).mpr hnot
        rw [hnone] at hpop
        exact Option.noConfusion hpop
      have hkrest : k ∈ rest := by
        rcases List.mem_cons.mp hk with h | h
        · exact absurd h hne
        · exact h
      have hnot1 : k ∉ alKeys pool1 := fun hmem =>
        hnot (((alPop_sublist pool r0 kpt pool1 hpop).map Prod.fst).mem hmem)
      cases hkd : kpt.kptData with
      | none => exact ⟨.keyError "value", by simp [claimKeypoints, hpop, hkd]⟩
      | some owv =>
        obtain ⟨ow, oh, v⟩ := owv
        cases hlbl : v.keypointlabels with
        | nil => exact ⟨.indexError, by simp [claimKeypoints, hpop, hkd, hlbl]⟩
        | cons node ls =>
          by_cases hnan : (((v.x.mul ow).div100).isnan || ((v.y.mul oh).div100).isnan) = true
          · obtain ⟨e, he⟩ := ih hkrest pts pool1 hnot1
            exact ⟨e, by simp [claimKeypoints, hpop, hkd, hlbl, hnan, he]⟩
          · obtain ⟨e, he⟩ := ih hkrest
              (alInsert pts node ⟨(v.x.mul ow).div100, (v.y.mul oh).div100, none⟩) pool1 hnot1
            exact ⟨e, by simp [claimKeypoints, hpop, hkd, hlbl, hnan, he]⟩

theorem claimKeypoints_pool_sublist (rels : List String) :
    ∀ (pts pts2 : AList Point) (pool pool2 : AList RItem),
      claimKeypoints rels pts pool = .ok (pts2, pool2) → pool2.Sublist pool := by
  induction rels with
  | nil =>
    intro pts pts2 pool pool2 h
    simp only [claimKeypoints] at h
    cases h
    exact List.Sublist.refl _
  | cons r0 rest ih =>
    intro pts pts2 pool pool2 h
    cases hpop : alPop pool r0 with
    | none => simp [claimKeypoints, hpop] at h
    | some pr =>
      obtain ⟨kpt, pool1⟩ := pr
      have hsub1 : pool1.Sublist pool := alPop_sublist pool r0 kpt pool1 hpop
      cases hkd : kpt.kptData with
      | none => simp [claimKeypoints, hpop, hkd] at h
      | some owv =>
        obtain ⟨ow, oh, v⟩ := owv
        cases hlbl : v.keypointlabels with
        | nil => simp [claimKeypoints, hpop, hkd, hlbl] at h
        | cons node ls =>
          simp only [claimKeypoints, hpop, hkd, hlbl] at h
          by_cases hnan : (((v.x.mul ow).div100).isnan || ((v.y.mul oh).div100).isnan) = true
          · rw [if_pos hnan] at h
            exact (ih pts pts2 pool1 pool2 h).trans hsub1
          · rw [if_neg hnan] at h
            exact (ih _ pts2 pool1 pool2 h).trans hsub1

theorem claimKeypoints_pops (rels : List String) (k : String) (hk : k ∈ rels) :
    ∀ (pts pts2 : AList Point) (pool pool2 : AList RItem),
      (alKeys pool).Nodup → claimKeypoints rels pts pool = .ok (pts2, pool2) →
      k ∉ alKeys pool2 := by
  induction rels with
  | nil => simp at hk
  | cons r0 rest ih =>
    intro pts pts2 pool pool2 hnd h
    cases hpop : alPop pool r0 with
    | none => simp [claimKeypoints, hpop] at h
    | some pr =>
      obtain ⟨kpt, pool1⟩ := pr
      have hsub1 : pool1.Sublist pool := alPop_sublist pool r0 kpt pool1 hpop
      have hnd1 : (alKeys pool1).Nodup := ((hsub1.map Prod.fst).nodup hnd)
      cases hkd : kpt.kptData with
      | none => simp [claimKeypoints, hpop, hkd] at h
      | some owv =>
        obtain ⟨ow, oh, v⟩ := owv
        cases hlbl : v.keypointlabels with
        | nil => simp [claimKeypoints, hpop, hkd, hlbl] at h
        | cons node ls =>
          simp only [claimKeypoints, hpop, hkd, hlbl] at h
          have hrec : ∀ pts', claimKeypoints rest pts' pool1 = .ok (pts2, pool2) →
              k ∉ alKeys pool2 := by
            intro pts' hrun
            rcases List.mem_cons.mp hk with heq | hmem
            · subst heq
              have hgone : k ∉ alKeys pool1 := alPop_not_mem_keys pool k kpt pool1 hnd hpop
              intro hmem2
              exact hgone
                (((claimKeypoints_pool_sublist rest pts' pts2 pool1 pool2 hrun).map
                  Prod.fst).mem hmem2)
            · exact ih hmem pts' pts2 pool1 pool2 hnd1 hrun
          by_cases hnan : (((v.x.mul ow).div100).isnan || ((v.y.mul oh).div100).isnan) = true
          · rw [if_pos hnan] at h
            exact hrec pts h
          · rw [if_neg hnan] at h
            exact hrec _ h

theorem processOneIndividual_pool_sublist (relations : AList (List String))
    (pool : AList RItem) (i : String) (pts2 : AList Point) (pool2 : AList RItem)
    (h : processOneIndividual relations pool i = .ok (pts2, pool2)) :
    pool2.Sublist pool := by
  unfold processOneIndividual at h
  cases hrel : alLookup relations i with
  | none => rw [hrel] at h; simp at h
  | some rels =>
    rw [hrel] at h
    exact claimKeypoints_pool_sublist rels [] pts2 pool pool2 h

theorem processIndividuals_error_of_no_rel (relations : AList (List String))
    (skel : Skeleton) (entries : List (String × RItem)) (i : String)
    (hi : i ∈ entries.map Prod.fst) (hrel : alLookup relations i = none) :
    ∀ (insts : List Instance) (pool : AList RItem),
      ∃ e, processIndividuals relations skel entries insts pool = .error e := by
  induction entries with
  | nil => simp at hi
  | cons entry rest ih =>
    obtain ⟨j, it⟩ := entry
    intro insts pool
    by_cases hj : j = i
    · subst hj
      exact ⟨.keyError j, by simp [processIndividuals, processOneIndividual, hrel]⟩
    · have hirest : i ∈ rest.map Prod.fst := by
        rcases List.mem_cons.mp (by simpa only [List.map_cons] using hi) with h | h
        · exact absurd h.symm hj
        · exact h
      cases hone : processOneIndividual relations pool j with
      | error e => exact ⟨e, by simp [processIndividuals, hone]⟩
      | ok pr =>
        obtain ⟨pts, pool1⟩ := pr
        by_cases hlen : pts.length > 0
        · obtain ⟨e, he⟩ := ih hirest (insts ++ [⟨pts, skel⟩]) pool1
          exact ⟨e, by simp [processIndividuals, hone, hlen, he]⟩
        · obtain ⟨e, he⟩ := ih hirest insts pool1
          exact ⟨e, by simp [processIndividuals, hone, hlen, he]⟩

theorem processIndividuals_error_of_missing_kpt (relations : AList (List String))
    (skel : Skeleton) (entries : List (String × RItem)) (i : String) (li : List String)
    (k : String) (hi : i ∈ entries.map Prod.fst)
    (hrel : alLookup relations i = some li) (hk : k ∈ li) :
    ∀ (insts : List Instance) (pool : AList RItem), k ∉ alKeys pool →
      ∃ e, processIndividuals relations skel entries insts pool = .error e := by
  induction entries with
  | nil => simp at hi
  | cons entry rest ih =>
    obtain ⟨j, it⟩ := entry
    intro insts pool hnot
    by_cases hj : j = i
    · subst hj
      obtain ⟨e, he⟩ := claimKeypoints_error_of_missing li k hk [] pool hnot
      exact ⟨e, by simp [processIndividuals, processOneIndividual, hrel, he]⟩
    · have hirest : i ∈ rest.map Prod.fst := by
        rcases List.mem_cons.mp (by simpa only [List.map_cons] using hi) with h | h
        · exact absurd h.symm hj
        · exact h
      cases hone : processOneIndividual relations pool j with
      | error e => exact ⟨e, by simp [processIndividuals, hone]⟩
      | ok pr =>
        obtain ⟨pts, pool1⟩ := pr
        have hnot1 : k ∉ alKeys pool1 := fun hmem => hnot
          (((processOneIndividual_pool_sublist relations pool j pts pool1 hone).map
            Prod.fst).mem hmem)
        by_cases hlen : pts.length > 0
        · obtain ⟨e, he⟩ := ih hirest (insts ++ [⟨pts, skel⟩]) pool1 hnot1
          exact ⟨e, by simp [processIndividuals, hone, hlen, he]⟩
        · obtain ⟨e, he⟩ := ih hirest insts pool1 hnot1
          exact ⟨e, by simp [processIndividuals, hone, hlen, he]⟩

theorem processIndividuals_error_of_shared (relations : AList (List String))
    (skel : Skeleton) (entries : List (String × RItem)) (i1 i2 k : String)
    (l1 l2 : List String) (h12 : i1 ≠ i2)
    (hr1 : alLookup relations i1 = some l1) (hk1 : k ∈ l1)
    (hr2 : alLookup relations i2 = some l2) (hk2 : k ∈ l2)
    (h1 : i1 ∈ entries.map Prod.fst) (h2 : i2 ∈ entries.map Prod.fst) :
    ∀ (insts : List Instance) (pool : AList RItem), (alKeys pool).Nodup →
      ∃ e, processIndividuals relations skel entries insts pool = .error e := by
  induction entries with
  | nil => simp at h1
  | cons entry rest ih =>
    obtain ⟨j, it⟩ := entry
    intro insts pool hnd
    cases hone : processOneIndividual relations pool j with
    | error e => exact ⟨e, by simp [processIndividuals, hone]⟩
    | ok pr =>
      obtain ⟨pts, pool1⟩ := pr
      have hsub1 : pool1.Sublist pool :=
        processOneIndividual_pool_sublist relations pool j pts pool1 hone
      have hnd1 : (alKeys pool1).Nodup := (hsub1.map Prod.fst).nodup hnd
      have hfin : (∃ i li, i ∈ rest.map Prod.fst ∧ alLookup relations i = some li ∧
          k ∈ li ∧ k ∉ alKeys pool1) →
          ∀ (insts1 : List Instance),
            ∃ e, processIndividuals relations skel rest insts1 pool1 = .error e := by
        rintro ⟨i, li, hirest, hreli, hkli, hknot⟩ insts1
        exact processIndividuals_error_of_missing_kpt relations skel rest i li k hirest
          hreli hkli insts1 pool1 hknot
      by_cases hj1 : j = i1
      · subst hj1
        have hclaim : claimKeypoints l1 [] pool = .ok (pts, pool1) := by
          unfold processOneIndividual at hone
          rw [hr1] at hone
          exact hone
        have hgone : k ∉ alKeys pool1 :=
          claimKeypoints_pops l1 k hk1 [] pts pool pool1 hnd hclaim
        have hi2rest : i2 ∈ rest.map Prod.fst := by
          rcases List.mem_cons.mp (by simpa only [List.map_cons] using h2) with h | h
          · exact absurd h.symm h12
          · simpa using h
        have hrest := hfin ⟨i2, l2, hi2rest, hr2, hk2, hgone⟩
        by_cases hlen : pts.length > 0
        · obtain ⟨e, he⟩ := hrest (insts ++ [⟨pts, skel⟩])
          exact ⟨e, by simp [processIndividuals, hone, hlen, he]⟩
        · obtain ⟨e, he⟩ := hrest insts
          exact ⟨e, by simp [processIndividuals, hone, hlen, he]⟩
      · by_cases hj2 : j = i2
        · subst hj2
          have hclaim : claimKeypoints l2 [] pool = .ok (pts, pool1) := by
            unfold processOneIndividual at hone
            rw [hr2] at hone
            exact hone
          have hgone : k ∉ alKeys pool1 :=
            claimKeypoints_pops l2 k hk2 [] pts pool pool1 hnd hclaim
          have hi1rest : i1 ∈ rest.map Prod.fst := by
            rcases List.mem_cons.mp (by simpa only [List.map_cons] using h1) with h | h
            · exact absurd h.symm hj1
            · exact h
          have hrest := hfin ⟨i1, l1, hi1rest, hr1, hk1, hgone⟩
          by_cases hlen : pts.length > 0
          · obtain ⟨e, he⟩ := hrest (insts ++ [⟨pts, skel⟩])
            exact ⟨e, by simp [processIndividuals, hone, hlen, he]⟩
          · obtain ⟨e, he⟩ := hrest insts
            exact ⟨e, by simp [processIndividuals, hone, hlen, he]⟩
        · have hi1rest : i1 ∈ rest.map Prod.fst := by
            rcases List.mem_cons.mp (by simpa only [List.map_cons] using h1) with h | h
            · exact absurd h.symm hj1
            · simpa using h
          have hi2rest : i2 ∈ rest.map Prod.fst := by
            rcases List.mem_cons.mp (by simpa only [List.map_cons] using h2) with h | h
            · exact absurd h.symm hj2
            · exact h
          by_cases hlen : pts.length > 0
          · obtain ⟨e, he⟩ := ih hi1rest hi2rest (insts ++ [⟨pts, skel⟩]) pool1 hnd1
            exact ⟨e, by simp [processIndividuals, hone, hlen, he]⟩
          · obtain ⟨e, he⟩ := ih hi1rest hi2rest insts pool1 hnd1
            exact ⟨e, by simp [processIndividuals, hone, hlen, he]⟩

/-- A failing inner parse wraps into the per-task error. -/
theorem task_to_wrapped (task : Task) (skeleton : Skeleton) (key : AKey)
    (sets : List AnnSet) (c : PErr) (hkey : task.get key = some sets)
    (hc : parseTaskInner sets task skeleton = .error c) :
    task_to_labeled_frame task skeleton key =
      .error (.wrapped ((task.id).getD "??") c) := by
  have heq : task_to_labeled_frame task skeleton key =
      match parseTaskInner sets task skeleton with
      | .ok lf => .ok lf
      | .error c2 => .error (.wrapped ((task.id).getD "??") c2) := by
    unfold task_to_labeled_frame
    rw [hkey]
  rw [heq, hc]

/-- C3 (amended): an individual whose id has no entry in the relation map makes the
per-task parse fail with the wrapped error (the `relations[indv_id]` lookup raises
`KeyError`), rather than being treated as an individual with no connected
keypoints. -/
theorem no_relation_error (task : Task) (skeleton : Skeleton) (key : AKey)
    (first : AnnSet) (restSets : List AnnSet) (individuals : AList RItem) (i : String)
    (hkey : task.get key = some (first :: restSets))
    (hind : filter_and_index first.result "rectanglelabels" = .ok individuals)
    (hi : i ∈ alKeys individuals)
    (hrel : alLookup (build_relation_map first.result) i = none) :
    ∃ cause, task_to_labeled_frame task skeleton key =
      .error (.wrapped ((task.id).getD "??") cause) := by
  have hinner : ∃ c, parseTaskInner (first :: restSets) task skeleton = .error c := by
    cases hkpt : filter_and_index first.result "keypointlabels" with
    | error e => exact ⟨e, by simp [parseTaskInner, hind, hkpt]⟩
    | ok pool =>
      obtain ⟨e, he⟩ := processIndividuals_error_of_no_rel
        (build_relation_map first.result) skeleton individuals i hi hrel [] pool
      exact ⟨e, by simp [parseTaskInner, hind, hkpt, he]⟩
  obtain ⟨c, hc⟩ := hinner
  exact ⟨c, task_to_wrapped task skeleton key (first :: restSets) c hkey hc⟩

/-- C3, counterexample to the claim as stated: a task whose single individual
appears in no relation entry fails with a wrapped `KeyError` instead of parsing
to a frame in which that individual contributes no instance. -/
theorem no_relation_cex :
    alLookup (build_relation_map [exRect "r1"]) "r1" = none ∧
    task_to_labeled_frame (exTask [exRect "r1"]) exSkel .annKey =
      .error (.wrapped "t1" (.keyError "r1")) :=
  ⟨rfl, rfl⟩

/-- Example: the amended C3 statement at the concrete one-individual task. -/
theorem no_relation_error_w :
    ∃ cause, task_to_labeled_frame (exTask [exRect "r1"]) exSkel .annKey =
      .error (.wrapped (((exTask [exRect "r1"]).id).getD "??") cause) :=
  no_relation_error (exTask [exRect "r1"]) exSkel .annKey
    ⟨[exRect "r1"], false, false, 0, 1⟩ [] [("r1", exRect "r1")] "r1" rfl rfl
    (by simp [alKeys]) rfl

/-- C10: relation edges connecting one keypoint id to two different individuals
make the task parse fail with the wrapped per-task error: the keypoint record is
popped from the pool on the first claim, so the second individual's lookup of
that id raises. -/
theorem shared_keypoint_error (task : Task) (skeleton : Skeleton) (key : AKey)
    (first : AnnSet) (restSets : List AnnSet) (individuals pool : AList RItem)
    (i1 i2 k : String) (l1 l2 : List String)
    (hkey : task.get key = some (first :: restSets))
    (hind : filter_and_index first.result "rectanglelabels" = .ok individuals)
    (hkpt : filter_and_index first.result "keypointlabels" = .ok pool)
    (h12 : i1 ≠ i2)
    (h1 : i1 ∈ alKeys individuals) (h2 : i2 ∈ alKeys individuals)
    (hr1 : alLookup (build_relation_map first.result) i1 = some l1) (hk1 : k ∈ l1)
    (hr2 : alLookup (build_relation_map first.result) i2 = some l2) (hk2 : k ∈ l2) :
    ∃ cause, task_to_labeled_frame task skeleton key =
      .error (.wrapped ((task.id).getD "??") cause) := by
  have hnd := filter_and_index_nodup first.result "keypointlabels" pool hkpt
  obtain ⟨e, he⟩ := processIndividuals_error_of_shared (build_relation_map first.result)
    skeleton individuals i1 i2 k l1 l2 h12 hr1 hk1 hr2 hk2 h1 h2 [] pool hnd
  exact ⟨e, task_to_wrapped task skeleton key (first :: restSets) e hkey
    (by simp [parseTaskInner, hind, hkpt, he])⟩

/-- Example: sharing the keypoint `"k1"` between `"r1"` and `"r2"` fails the task
parse wrapped. -/
theorem shared_keypoint_error_w :
    ∃ cause, task_to_labeled_frame (exTask ex10Items) exSkel .annKey =
      .error (.wrapped (((exTask ex10Items).id).getD "??") cause) :=
  shared_keypoint_error (exTask ex10Items) exSkel .annKey ⟨ex10Items, false, false, 0, 1⟩ []
    [("r1", exRect "r1"), ("r2", exRect "r2")] [("k1", exKpt "k1" "head" (.num 50) (.num 50))]
    "r1" "r2" "k1" ["k1"] ["k1"] rfl rfl rfl (by decide) (by simp [alKeys]) (by simp [alKeys])
    rfl (by simp) rfl (by simp)

/-! ### Inversion of a successful task parse -/

theorem task_to_ok_inversion (task : Task) (skeleton : Skeleton) (key : AKey)
    (frame : LabeledFrame) (h : task_to_labeled_frame task skeleton key = .ok frame) :
    ∃ sets, task.get key = some sets ∧ parseTaskInner sets task skeleton = .ok frame := by
  cases hg : task.get key with
  | none =>
    unfold task_to_labeled_frame at h
    rw [hg] at h
    simp at h
  | some sets =>
    have heq : task_to_labeled_frame task skeleton key =
        match parseTaskInner sets task skeleton with
        | .ok lf => .ok lf
        | .error c => .error (.wrapped ((task.id).getD "??") c) := by
      unfold task_to_labeled_frame
      rw [hg]
    rw [heq] at h
    cases hpi : parseTaskInner sets task skeleton with
    | error c =>
      rw [hpi] at h
      simp at h
    | ok lf =>
      rw [hpi] at h
      simp only [Except.ok.injEq] at h
      exact ⟨sets, rfl, by rw [hpi, h]⟩

theorem parseTaskInner_ok_inversion (sets : List AnnSet) (task : Task)
    (skeleton : Skeleton) (frame : LabeledFrame)
    (h : parseTaskInner sets task skeleton = .ok frame) :
    ∃ first restSets individuals pool insts pool1 pts vm,
      sets = first :: restSets ∧
      filter_and_index first.result "rectanglelabels" = .ok individuals ∧
      filter_and_index first.result "keypointlabels" = .ok pool ∧
      processIndividuals (build_relation_map first.result) skeleton individuals [] pool =
        .ok (insts, pool1) ∧
      leftoverLoop pool1 [] = .ok pts ∧
      task.meta_video = some vm ∧
      frame = ⟨⟨vm.filename, vm.shape⟩, vm.frame_idx,
        if pts.length > 0 then insts ++ [⟨pts, skeleton⟩] else insts⟩ := by
  cases sets with
  | nil => simp [parseTaskInner] at h
  | cons first restSets =>
    cases hind : filter_and_index first.result "rectanglelabels" with
    | error e => simp [parseTaskInner, hind] at h
    | ok individuals =>
      cases hkpt : filter_and_index first.result "keypointlabels" with
      | error e => simp [parseTaskInner, hind, hkpt] at h
      | ok pool =>
        cases hproc : processIndividuals (build_relation_map first.result) skeleton
            individuals [] pool with
        | error e => simp [parseTaskInner, hind, hkpt, hproc] at h
        | ok pr =>
          obtain ⟨insts, pool1⟩ := pr
          cases hleft : leftoverLoop pool1 [] with
          | error e => simp [parseTaskInner, hind, hkpt, hproc, hleft] at h
          | ok pts =>
            cases hvm : task.meta_video with
            | none =>
              simp [parseTaskInner, video_from_task, hind, hkpt, hproc, hleft, hvm] at h
            | some vm =>
              refine ⟨first, restSets, individuals, pool, insts, pool1, pts, vm,
                rfl, hind, hkpt, hproc, hleft, rfl, ?_⟩
              have hval : parseTaskInner (first :: restSets) task skeleton =
                  .ok ⟨⟨vm.filename, vm.shape⟩, vm.frame_idx,
                    if pts.length > 0 then insts ++ [⟨pts, skeleton⟩] else insts⟩ := by
                simp [parseTaskInner, video_from_task, hind, hkpt, hproc, hleft, hvm]
              rw [hval] at h
              injection h with h2
              exact h2.symm

/-! ### Points produced by the individuals loop and the leftover loop -/

theorem claimKeypoints_new_points (rels : List String) :
    ∀ (pts pts2 : AList Point) (pool pool2 : AList RItem),
      claimKeypoints rels pts pool = .ok (pts2, pool2) →
      ∀ np ∈ pts2, np ∈ pts ∨
        (np.2.visible = none ∧ np.2.x.isnan = false ∧ np.2.y.isnan = false) := by
  induction rels with
  | nil =>
    intro pts pts2 pool pool2 h np hnp
    simp only [claimKeypoints] at h
    cases h
    exact Or.inl hnp
  | cons r0 rest ih =>
    intro pts pts2 pool pool2 h np hnp
    cases hpop : alPop pool r0 with
    | none => simp [claimKeypoints, hpop] at h
    | some pr =>
      obtain ⟨kpt, pool1⟩ := pr
      cases hkd : kpt.kptData with
      | none => simp [claimKeypoints, hpop, hkd] at h
      | some owv =>
        obtain ⟨ow, oh, v⟩ := owv
        cases hlbl : v.keypointlabels with
        | nil => simp [claimKeypoints, hpop, hkd, hlbl] at h
        | cons node ls =>
          simp only [claimKeypoints, hpop, hkd, hlbl] at h
          by_cases hnan : (((v.x.mul ow).div100).isnan || ((v.y.mul oh).div100).isnan) = true
          · rw [if_pos hnan] at h
            exact ih pts pts2 pool1 pool2 h np hnp
          · rw [if_neg hnan] at h
            rcases ih _ pts2 pool1 pool2 h np hnp with hmem | hnew
            · rcases alInsert_mem pts node _ np hmem with h1 | h1
              · exact Or.inl h1
              · have hor : (((v.x.mul ow).div100).isnan ||
                    ((v.y.mul oh).div100).isnan) = false := Bool.eq_false_iff.mpr hnan
                obtain ⟨hx, hy⟩ := Bool.or_eq_false_iff.mp hor
                refine Or.inr ⟨?_, ?_, ?_⟩
                · rw [h1]
                · rw [h1]; exact hx
                · rw [h1]; exact hy
            · exact Or.inr hnew

theorem processIndividuals_points (relations : AList (List String)) (skel : Skeleton)
    (entries : List (String × RItem)) :
    ∀ (insts insts2 : List Instance) (pool pool2 : AList RItem),
      processIndividuals relations skel entries insts pool = .ok (insts2, pool2) →
      ∀ inst ∈ insts2, inst ∈ insts ∨
        (inst.skeleton = skel ∧ ∀ np ∈ inst.points,
          np.2.visible = none ∧ np.2.x.isnan = false ∧ np.2.y.isnan = false) := by
  induction entries with
  | nil =>
    intro insts insts2 pool pool2 h inst hinst
    simp only [processIndividuals] at h
    cases h
    exact Or.inl hinst
  | cons entry rest ih =>
    obtain ⟨j, it⟩ := entry
    intro insts insts2 pool pool2 h inst hinst
    cases hone : processOneIndividual relations pool j with
    | error e => simp [processIndividuals, hone] at h
    | ok pr =>
      obtain ⟨pts, pool1⟩ := pr
      simp only [processIndividuals, hone] at h
      by_cases hlen : pts.length > 0
      · rw [if_pos hlen] at h
        rcases ih _ insts2 pool1 pool2 h inst hinst with hmem | hnew
        · rcases List.mem_append.mp hmem with h1 | h1
          · exact Or.inl h1
          · have hinsteq : inst = Instance.mk pts skel := by simpa using h1
            refine Or.inr ⟨by rw [hinsteq], ?_⟩
            intro np hnp
            rw [hinsteq] at hnp
            unfold processOneIndividual at hone
            cases hrel : alLookup relations j with
            | none =>
              rw [hrel] at hone
              simp at hone
            | some rels =>
              rw [hrel] at hone
              rcases claimKeypoints_new_points rels [] pts pool pool1 hone np
                  (by simpa using hnp) with h2 | h2
              · simp at h2
              · exact h2
        · exact Or.inr hnew
      · rw [if_neg hlen] at h
        rcases ih insts insts2 pool1 pool2 h inst hinst with hmem | hnew
        · exact Or.inl hmem
        · exact Or.inr hnew

theorem leftoverLoop_visible (pool : List (String × RItem)) :
    ∀ (pts0 pts : AList Point),
      leftoverLoop pool pts0 = .ok pts →
      (∀ np ∈ pts0, np.2.visible = some true) →
      ∀ np ∈ pts, np.2.visible = some true := by
  induction pool with
  | nil =>
    intro pts0 pts h h0 np hnp
    simp only [leftoverLoop] at h
    cases h
    exact h0 np hnp
  | cons p rest ih =>
    obtain ⟨k0, kpt⟩ := p
    intro pts0 pts h h0 np hnp
    cases hkd : kpt.kptData with
    | none => simp [leftoverLoop, hkd] at h
    | some owv =>
      obtain ⟨ow, oh, v⟩ := owv
      cases hlbl : v.keypointlabels with
      | nil => simp [leftoverLoop, hkd, hlbl] at h
      | cons node ls =>
        simp only [leftoverLoop, hkd, hlbl] at h
        refine ih _ pts h ?_ np hnp
        intro np2 hnp2
        rcases alInsert_mem pts0 node _ np2 hnp2 with h1 | h1
        · exact h0 np2 h1
        · rw [h1]

theorem alInsert_length_pos {α : Type} (m : AList α) (k : String) (v : α) :
    1 ≤ (alInsert m k v).length := by
  cases m with
  | nil => simp [alInsert]
  | cons kv rest =>
    obtain ⟨k0, v0⟩ := kv
    by_cases h : k0 = k <;> simp [alInsert, h]

theorem alInsert_length_ge {α : Type} (m : AList α) (k : String) (v : α) :
    m.length ≤ (alInsert m k v).length := by
  induction m with
  | nil => simp [alInsert]
  | cons kv rest ih =>
    obtain ⟨k0, v0⟩ := kv
    by_cases h : k0 = k
    · simp [alInsert, h]
    · simpa [alInsert, h] using ih

theorem leftoverLoop_length_mono (pool : List (String × RItem)) :
    ∀ (pts0 pts : AList Point), leftoverLoop pool pts0 = .ok pts →
      pts0.length ≤ pts.length := by
  induction pool with
  | nil =>
    intro pts0 pts h
    simp only [leftoverLoop] at h
    cases h
    exact le_refl _
  | cons p rest ih =>
    obtain ⟨k0, kpt⟩ := p
    intro pts0 pts h
    cases hkd : kpt.kptData with
    | none => simp [leftoverLoop, hkd] at h
    | some owv =>
      obtain ⟨ow, oh, v⟩ := owv
      cases hlbl : v.keypointlabels with
      | nil => simp [leftoverLoop, hkd, hlbl] at h
      | cons node ls =>
        simp only [leftoverLoop, hkd, hlbl] at h
        exact le_trans (alInsert_length_ge pts0 node _) (ih _ pts h)

theorem leftoverLoop_ne_nil (p : String × RItem) (rest : List (String × RItem))
    (pts0 pts : AList Point) (h : leftoverLoop (p :: rest) pts0 = .ok pts) :
    pts ≠ [] := by
  obtain ⟨k0, kpt⟩ := p
  cases hkd : kpt.kptData with
  | none => simp [leftoverLoop, hkd] at h
  | some owv =>
    obtain ⟨ow, oh, v⟩ := owv
    cases hlbl : v.keypointlabels with
    | nil => simp [leftoverLoop, hkd, hlbl] at h
    | cons node ls =>
      simp only [leftoverLoop, hkd, hlbl] at h
      have h1 := alInsert_length_pos pts0 node
        ⟨(v.x.mul ow).div100, (v.y.mul oh).div100, some true⟩
      have h2 := leftoverLoop_length_mono rest _ pts h
      have h3 : 1 ≤ pts.length := le_trans h1 h2
      intro hnil
      rw [hnil] at h3
      simp at h3

/-- C2 (amended): keypoints claimed through the relation map are dropped when their
converted coordinate is NaN in either axis — every point stored with default
visibility in a parsed frame is non-NaN.  Leftover keypoints, stored with explicit
visibility, are exempt: the source performs no NaN check on them, which refutes
the claim's second half (see the counterexample). -/
theorem nan_drop_claimed (task : Task) (skeleton : Skeleton) (key : AKey)
    (frame : LabeledFrame) (h : task_to_labeled_frame task skeleton key = .ok frame) :
    ∀ inst ∈ frame.instances, ∀ np ∈ inst.points,
      np.2.visible = none → np.2.x.isnan = false ∧ np.2.y.isnan = false := by
  obtain ⟨sets, hg, hpi⟩ := task_to_ok_inversion task skeleton key frame h
  obtain ⟨first, restSets, individuals, pool, insts, pool1, pts, vm, hsets, hind, hkpt,
    hproc, hleft, hvm, hframe⟩ := parseTaskInner_ok_inversion sets task skeleton frame hpi
  intro inst hinst np hnp hvis
  subst hframe
  have hinst2 : inst ∈ (if pts.length > 0 then insts ++ [⟨pts, skeleton⟩] else insts) :=
    hinst
  have hcore : inst ∈ insts →
      np.2.x.isnan = false ∧ np.2.y.isnan = false := by
    intro hmem
    rcases processIndividuals_points _ _ individuals [] insts pool pool1 hproc inst hmem
      with hmem0 | hnew
    · simp at hmem0
    · exact ⟨(hnew.2 np hnp).2.1, (hnew.2 np hnp).2.2⟩
  by_cases hlen : pts.length > 0
  · rw [if_pos hlen] at hinst2
    rcases List.mem_append.mp hinst2 with h1 | h1
    · exact hcore h1
    · have hinsteq : inst = Instance.mk pts skeleton := by simpa using h1
      have hvt : np.2.visible = some true :=
        leftoverLoop_visible pool1 [] pts hleft (by simp) np (by rw [hinsteq] at hnp; exact hnp)
      rw [hvis] at hvt
      simp at hvt
  · rw [if_neg hlen] at hinst2
    exact hcore hinst2

/-- C2, counterexample to the claim as stated: a leftover (unclaimed) keypoint
whose x converts to NaN is stored in the extra instance rather than dropped. -/
theorem nan_drop_cex :
    task_to_labeled_frame (exTask [exKpt "k1" "head" .nan (.num 10)]) exSkel .annKey =
      .ok ⟨⟨"v.mp4", none⟩, 0, [⟨[("head", ⟨.nan, .num 10, some true⟩)], exSkel⟩]⟩ ∧
    JNum.isnan .nan = true :=
  ⟨by simp [task_to_labeled_frame, Task.get, exTask, parseTaskInner,
      filter_and_index, indexLoop, alInsert, build_relation_map, relPairs, buildRelLoop,
      addRelEdge, alLookup, processIndividuals, processOneIndividual, claimKeypoints,
      alPop, RItem.type, RItem.idOpt, RItem.kptData, JNum.mul, JNum.div100, JNum.isnan,
      leftoverLoop, video_from_task, exRect, exKpt, exSkel], rfl⟩

/-- Example: the amended C2 statement at a concrete claimed keypoint. -/
theorem nan_drop_claimed_w :
    (Point.mk (.num 50) (.num 50) none).x.isnan = false ∧
    (Point.mk (.num 50) (.num 50) none).y.isnan = false :=
  nan_drop_claimed (exTask ex2Items) exSkel .annKey
    ⟨⟨"v.mp4", none⟩, 0, [⟨[("head", ⟨.num 50, .num 50, none⟩)], exSkel⟩]⟩
    (by simp [task_to_labeled_frame, Task.get, exTask, parseTaskInner,
      filter_and_index, indexLoop, alInsert, build_relation_map, relPairs, buildRelLoop,
      addRelEdge, alLookup, processIndividuals, processOneIndividual, claimKeypoints,
      alPop, RItem.type, RItem.idOpt, RItem.kptData, JNum.mul, JNum.div100, JNum.isnan,
      leftoverLoop, video_from_task, exRect, exKpt, exSkel, ex2Items])
    ⟨[("head", ⟨.num 50, .num 50, none⟩)], exSkel⟩ (by simp)
    ("head", ⟨.num 50, .num 50, none⟩) (by simp) rfl

/-- C5: in every successfully parsed task, the keypoints left unclaimed after all
individuals are processed form exactly one additional instance, appended after the
per-individual instances, when the leftover pool is non-empty — every one of its
points marked explicitly visible — and no extra instance when the pool is empty;
per-individual instances carry only default-visibility points. -/
theorem leftover_instance (sets : List AnnSet) (task : Task) (skeleton : Skeleton)
    (frame : LabeledFrame) (h : parseTaskInner sets task skeleton = .ok frame) :
    ∃ first restSets individuals pool insts pool1 pts,
      sets = first :: restSets ∧
      filter_and_index first.result "rectanglelabels" = .ok individuals ∧
      filter_and_index first.result "keypointlabels" = .ok pool ∧
      processIndividuals (build_relation_map first.result) skeleton individuals [] pool =
        .ok (insts, pool1) ∧
      leftoverLoop pool1 [] = .ok pts ∧
      frame.instances = insts ++ (if pts.length > 0 then [⟨pts, skeleton⟩] else []) ∧
      (pool1 = [] ↔ pts = []) ∧
      (∀ np ∈ pts, np.2.visible = some true) ∧
      (∀ inst ∈ insts, ∀ np ∈ inst.points, np.2.visible = none) := by
  obtain ⟨first, restSets, individuals, pool, insts, pool1, pts, vm, hsets, hind, hkpt,
    hproc, hleft, hvm, hframe⟩ := parseTaskInner_ok_inversion sets task skeleton frame h
  refine ⟨first, restSets, individuals, pool, insts, pool1, pts, hsets, hind, hkpt,
    hproc, hleft, ?_, ?_, ?_, ?_⟩
  · rw [hframe]
    by_cases hlen : pts.length > 0 <;> simp [hlen]
  · constructor
    · intro hp1
      rw [hp1] at hleft
      simp only [leftoverLoop] at hleft
      injection hleft with h2
      exact h2.symm
    · intro hpts
      by_contra hne
      cases hp : pool1 with
      | nil => exact hne hp
      | cons p rest =>
        rw [hp] at hleft
        exact leftoverLoop_ne_nil p rest [] pts hleft hpts
  · intro np hnp
    exact leftoverLoop_visible pool1 [] pts hleft (by simp) np hnp
  · intro inst hinst np hnp
    rcases processIndividuals_points _ _ individuals [] insts pool pool1 hproc inst hinst
      with hmem | hnew
    · simp at hmem
    · exact (hnew.2 np hnp).1

/-- Example: the leftover-instance property at a concrete single-keypoint task. -/
theorem leftover_instance_w :
    ∃ first restSets individuals pool insts pool1 pts,
      [AnnSet.mk ex5Items false false 0 1] = first :: restSets ∧
      filter_and_index first.result "rectanglelabels" = .ok individuals ∧
      filter_and_index first.result "keypointlabels" = .ok pool ∧
      processIndividuals (build_relation_map first.result) exSkel individuals [] pool =
        .ok (insts, pool1) ∧
      leftoverLoop pool1 [] = .ok pts ∧
      (LabeledFrame.mk ⟨"v.mp4", none⟩ 0
        [⟨[("head", ⟨.num 10, .num 20, some true⟩)], exSkel⟩]).instances =
        insts ++ (if pts.length > 0 then [⟨pts, exSkel⟩] else []) ∧
      (pool1 = [] ↔ pts = []) ∧
      (∀ np ∈ pts, np.2.visible = some true) ∧
      (∀ inst ∈ insts, ∀ np ∈ inst.points, np.2.visible = none) :=
  leftover_instance [AnnSet.mk ex5Items false false 0 1] (exTask ex5Items) exSkel
    ⟨⟨"v.mp4", none⟩, 0, [⟨[("head", ⟨.num 10, .num 20, some true⟩)], exSkel⟩]⟩
    (by simp [task_to_labeled_frame, Task.get, exTask, parseTaskInner,
      filter_and_index, indexLoop, alInsert, build_relation_map, relPairs, buildRelLoop,
      addRelEdge, alLookup, processIndividuals, processOneIndividual, claimKeypoints,
      alPop, RItem.type, RItem.idOpt, RItem.kptData, JNum.mul, JNum.div100, JNum.isnan,
      leftoverLoop, video_from_task, exRect, exKpt, exSkel, ex5Items])

/-! ### Exact characterization of one individual's claim loop -/

theorem length_filter_add_not {α : Type} (l : List α) (p : α → Bool) :
    (l.filter p).length + (l.filter fun a => !p a).length = l.length := by
  induction l with
  | nil => simp
  | cons a rest ih =>
    by_cases h : p a = true <;> simp [List.filter_cons, h] <;> omega

theorem length_filter_not {α : Type} (l : List α) (p : α → Bool) :
    (l.filter fun a => !p a).length = l.length - (l.filter p).length := by
  have := length_filter_add_not l p
  omega

theorem kptNaNAt_congr (pool1 pool : AList RItem) (r : String)
    (h : alLookup pool1 r = alLookup pool r) : kptNaNAt pool1 r = kptNaNAt pool r := by
  unfold kptNaNAt
  rw [h]

theorem labelAt_congr (pool1 pool : AList RItem) (r : String)
    (h : alLookup pool1 r = alLookup pool r) : labelAt pool1 r = labelAt pool r := by
  unfold labelAt
  rw [h]

theorem convPointAt_congr (pool1 pool : AList RItem) (r : String)
    (h : alLookup pool1 r = alLookup pool r) : convPointAt pool1 r = convPointAt pool r := by
  unfold convPointAt
  rw [h]

theorem alDropKeys_nil {α : Type} (pool : AList α) : alDropKeys pool [] = pool := by
  unfold alDropKeys
  apply List.filter_eq_self.mpr
  intro p _
  simp

theorem alDropKeys_cons {α : Type} (pool : AList α) (r0 : String) (rest : List String) :
    alDropKeys (pool.filter fun kv => decide (kv.1 ≠ r0)) rest =
      alDropKeys pool (r0 :: rest) := by
  unfold alDropKeys
  rw [List.filter_filter]
  apply List.filter_congr
  intro kv _
  by_cases h1 : kv.1 = r0 <;> by_cases h2 : kv.1 ∈ rest <;> simp [h1, h2]

theorem claimKeypoints_eq (li : List String) :
    ∀ (pts0 : AList Point) (pool : AList RItem),
      li.Nodup → (alKeys pool).Nodup →
      (∀ r ∈ li, r ∈ alKeys pool) →
      (∀ r ∈ li, ∀ itr, alLookup pool r = some itr →
        ∃ ow oh v, itr.kptData = some (ow, oh, v) ∧ v.keypointlabels ≠ []) →
      ((alKeys pts0 ++ (li.filter fun r => !kptNaNAt pool r).map (labelAt pool))).Nodup →
      claimKeypoints li pts0 pool =
        .ok (pts0 ++ (li.filter fun r => !kptNaNAt pool r).map
              (fun r => (labelAt pool r, convPointAt pool r)),
             alDropKeys pool li) := by
  induction li with
  | nil =>
    intro pts0 pool _ _ _ _ _
    simp [claimKeypoints, alDropKeys_nil]
  | cons r0 rest ih =>
    intro pts0 pool hnodup hpool hmem hwf hlbl
    have hr0rest : r0 ∉ rest := (List.nodup_cons.mp hnodup).1
    have hrestnodup : rest.Nodup := (List.nodup_cons.mp hnodup).2
    have hr0mem : r0 ∈ alKeys pool := hmem r0 (by simp)
    cases hpop : alPop pool r0 with
    | none => exact absurd ((alPop_eq_none_iff pool r0).mp hpop) (by simp [hr0mem])
    | some pr =>
      obtain ⟨kpt, pool1⟩ := pr
      have hlook : alLookup pool r0 = some kpt := alPop_lookup pool r0 kpt pool1 hpop
      obtain ⟨ow, oh, v, hkd, hlblne⟩ := hwf r0 (by simp) kpt hlook
      cases hlbls : v.keypointlabels with
      | nil => exact absurd hlbls hlblne
      | cons node ls =>
        have hpool1nd : (alKeys pool1).Nodup :=
          ((alPop_sublist pool r0 kpt pool1 hpop).map Prod.fst).nodup hpool
        have hpool1f : pool1 = pool.filter fun kv => decide (kv.1 ≠ r0) :=
          alPop_filter pool r0 kpt pool1 hpool hpop
        have hlookeq : ∀ r ∈ rest, alLookup pool1 r = alLookup pool r := fun r hr =>
          alLookup_alPop_ne pool r0 kpt pool1 hpop r (fun hh => hr0rest (hh ▸ hr))
        have hmem1 : ∀ r ∈ rest, r ∈ alKeys pool1 := by
          intro r hr
          rw [← alLookup_isSome_iff, hlookeq r hr, alLookup_isSome_iff]
          exact hmem r (by simp [hr])
        have hwf1 : ∀ r ∈ rest, ∀ itr, alLookup pool1 r = some itr →
            ∃ ow2 oh2 v2, itr.kptData = some (ow2, oh2, v2) ∧ v2.keypointlabels ≠ [] := by
          intro r hr itr hitr
          rw [hlookeq r hr] at hitr
          exact hwf r (by simp [hr]) itr hitr
        have hfiltereq : (rest.filter fun r => !kptNaNAt pool1 r) =
            (rest.filter fun r => !kptNaNAt pool r) :=
          List.filter_congr fun r hr => by rw [kptNaNAt_congr pool1 pool r (hlookeq r hr)]
        have hmapeq : ∀ (l : List String), (∀ r ∈ l, r ∈ rest) →
            l.map (fun r => (labelAt pool1 r, convPointAt pool1 r)) =
              l.map (fun r => (labelAt pool r, convPointAt pool r)) := by
          intro l hl
          apply List.map_congr_left
          intro r hr
          rw [labelAt_congr pool1 pool r (hlookeq r (hl r hr)),
            convPointAt_congr pool1 pool r (hlookeq r (hl r hr))]
        have hlblmapeq : (rest.filter fun r => !kptNaNAt pool r).map (labelAt pool1) =
            (rest.filter fun r => !kptNaNAt pool r).map (labelAt pool) := by
          apply List.map_congr_left
          intro r hr
          exact labelAt_congr pool1 pool r (hlookeq r (List.mem_of_mem_filter hr))
        have hnanat : kptNaNAt pool r0 =
            (((v.x.mul ow).div100).isnan || ((v.y.mul oh).div100).isnan) := by
          simp [kptNaNAt, hlook, hkd]
        have hlblat : labelAt pool r0 = node := by
          simp [labelAt, hlook, hkd, hlbls]
        have hconvat : convPointAt pool r0 =
            ⟨(v.x.mul ow).div100, (v.y.mul oh).div100, none⟩ := by
          simp [convPointAt, hlook, hkd]
        have hdrop : alDropKeys pool1 rest = alDropKeys pool (r0 :: rest) := by
          rw [hpool1f]
          exact alDropKeys_cons pool r0 rest
        by_cases hnan : (((v.x.mul ow).div100).isnan || ((v.y.mul oh).div100).isnan) = true
        · have hstep : claimKeypoints (r0 :: rest) pts0 pool =
              claimKeypoints rest pts0 pool1 := by
            simp [claimKeypoints, hpop, hkd, hlbls, hnan]
          have hfhead : ((r0 :: rest).filter fun r => !kptNaNAt pool r) =
              rest.filter fun r => !kptNaNAt pool r := by
            rw [List.filter_cons]
            simp [hnanat, hnan]
          have hlbl1 : ((alKeys pts0 ++
              (rest.filter fun r => !kptNaNAt pool1 r).map (labelAt pool1))).Nodup := by
            rw [hfiltereq, hlblmapeq]
            rw [hfhead] at hlbl
            exact hlbl
          rw [hstep, ih pts0 pool1 hrestnodup hpool1nd hmem1 hwf1 hlbl1]
          rw [hfiltereq, hmapeq _ (fun r hr => List.mem_of_mem_filter hr), hdrop, hfhead]
        · have hstep : claimKeypoints (r0 :: rest) pts0 pool =
              claimKeypoints rest
                (alInsert pts0 node ⟨(v.x.mul ow).div100, (v.y.mul oh).div100, none⟩)
                pool1 := by
            simp [claimKeypoints, hpop, hkd, hlbls, hnan]
          have hfhead : ((r0 :: rest).filter fun r => !kptNaNAt pool r) =
              r0 :: (rest.filter fun r => !kptNaNAt pool r) := by
            rw [List.filter_cons]
            simp [hnanat, Bool.eq_false_iff.mpr hnan]
          have hlblshape : (alKeys pts0 ++
              node :: (rest.filter fun r => !kptNaNAt pool r).map (labelAt pool)).Nodup := by
            rw [hfhead] at hlbl
            simpa [hlblat] using hlbl
          have hnodemem : node ∉ alKeys pts0 := by
            rw [List.nodup_append] at hlblshape
            intro hmem0
            exact hlblshape.2.2 hmem0 (by simp)
          have hins : alInsert pts0 node
              ⟨(v.x.mul ow).div100, (v.y.mul oh).div100, none⟩ =
              pts0 ++ [(node, ⟨(v.x.mul ow).div100, (v.y.mul oh).div100, none⟩)] :=
            alInsert_of_not_mem pts0 node _ hnodemem
          have hlbl1 : ((alKeys (pts0 ++
              [(node, (⟨(v.x.mul ow).div100, (v.y.mul oh).div100, none⟩ : Point))]) ++
              (rest.filter fun r => !kptNaNAt pool1 r).map (labelAt pool1))).Nodup := by
            rw [hfiltereq, hlblmapeq]
            have hkeys : alKeys (pts0 ++
                [(node, (⟨(v.x.mul ow).div100, (v.y.mul oh).div100, none⟩ : Point))]) =
                alKeys pts0 ++ [node] := by
              simp [alKeys]
            rw [hkeys, List.append_assoc, List.singleton_append]
            exact hlblshape
          rw [hstep, hins]
          rw [ih _ pool1 hrestnodup hpool1nd hmem1 hwf1 hlbl1]
          rw [hfiltereq, hmapeq _ (fun r hr => List.mem_of_mem_filter hr), hdrop, hfhead]
          simp [hlblat, hconvat, List.append_assoc]

/-- C4 (amended): for an individual with `N` connected keypoint ids of which `M`
convert to NaN in some axis, the parser produces a claimed point set of exactly
`N − M` points, each converted with that keypoint's own recorded
`original_width`/`original_height`, and appends an instance exactly when
`N − M > 0` — under the well-formedness hypotheses the duplicate-label
counterexample forces: the connected ids are distinct and all present in the
pool, the claimed items are well-formed keypoints, and the labels of the
non-NaN keypoints are pairwise distinct. -/
theorem instance_points_count (relations : AList (List String)) (skel : Skeleton)
    (i : String) (it : RItem) (entriesRest : List (String × RItem))
    (insts : List Instance) (pool : AList RItem) (li : List String)
    (hrel : alLookup relations i = some li)
    (hnodup : li.Nodup) (hpool : (alKeys pool).Nodup)
    (hmem : ∀ r ∈ li, r ∈ alKeys pool)
    (hwf : ∀ r ∈ li, ∀ itr, alLookup pool r = some itr →
      ∃ ow oh v, itr.kptData = some (ow, oh, v) ∧ v.keypointlabels ≠ [])
    (hlbl : ((li.filter fun r => !kptNaNAt pool r).map (labelAt pool)).Nodup) :
    ∃ pts,
      processOneIndividual relations pool i = .ok (pts, alDropKeys pool li) ∧
      pts.length = li.length - (li.filter fun r => kptNaNAt pool r).length ∧
      pts = (li.filter fun r => !kptNaNAt pool r).map
        (fun r => (labelAt pool r, convPointAt pool r)) ∧
      processIndividuals relations skel ((i, it) :: entriesRest) insts pool =
        (if li.length - (li.filter fun r => kptNaNAt pool r).length > 0 then
          processIndividuals relations skel entriesRest (insts ++ [⟨pts, skel⟩])
            (alDropKeys pool li)
        else processIndividuals relations skel entriesRest insts (alDropKeys pool li)) := by
  have hclaim := claimKeypoints_eq li [] pool hnodup hpool hmem hwf (by simpa [alKeys] using hlbl)
  have hone : processOneIndividual relations pool i =
      .ok ((li.filter fun r => !kptNaNAt pool r).map
            (fun r => (labelAt pool r, convPointAt pool r)),
           alDropKeys pool li) := by
    unfold processOneIndividual
    rw [hrel]
    show claimKeypoints li [] pool = _
    rw [hclaim]
    simp
  refine ⟨_, hone, ?_, rfl, ?_⟩
  · rw [List.length_map]
    exact length_filter_not li _
  · have hlen : ((li.filter fun r => !kptNaNAt pool r).map
        (fun r => (labelAt pool r, convPointAt pool r))).length =
        li.length - (li.filter fun r => kptNaNAt pool r).length := by
      rw [List.length_map]
      exact length_filter_not li _
    simp only [processIndividuals, hone]
    rw [hlen]

/-- C4, counterexample to the claim as stated: the individual `"r1"` has `N = 2`
connected keypoints, `M = 0` of which convert to NaN, yet the produced instance
has one point, not `N − M = 2`: the two keypoints share the label `"head"`, and
the second dict assignment overwrites the first. -/
theorem instance_points_count_cex :
    task_to_labeled_frame (exTask ex4Items) exSkel .annKey =
      .ok ⟨⟨"v.mp4", none⟩, 0, [⟨[("head", ⟨.num 20, .num 20, none⟩)], exSkel⟩]⟩ ∧
    alLookup (build_relation_map ex4Items) "r1" = some ["k1", "k2"] ∧
    filter_and_index ex4Items "keypointlabels" = .ok ex4Pool ∧
    (["k1", "k2"].filter fun r => kptNaNAt ex4Pool r).length = 0 ∧
    ([("head", (⟨.num 20, .num 20, none⟩ : Point))] : AList Point).length ≠
      ["k1", "k2"].length - 0 :=
  ⟨by simp [task_to_labeled_frame, Task.get, exTask, parseTaskInner,
      filter_and_index, indexLoop, alInsert, build_relation_map, relPairs, buildRelLoop,
      addRelEdge, alLookup, processIndividuals, processOneIndividual, claimKeypoints,
      alPop, RItem.type, RItem.idOpt, RItem.kptData, JNum.mul, JNum.div100, JNum.isnan,
      leftoverLoop, video_from_task, exRect, exKpt, exSkel, ex4Items],
   rfl, rfl,
   by simp [kptNaNAt, alLookup, ex4Pool, exKpt, RItem.kptData, JNum.mul, JNum.div100,
      JNum.isnan],
   by decide⟩

/-- Example: the amended C4 statement at a concrete one-individual, one-keypoint
task: `N = 1`, `M = 0`, and the claimed point set has exactly one point. -/
theorem instance_points_count_w :
    ∃ pts,
      processOneIndividual (build_relation_map ex2Items) ex2Pool "r1" =
        .ok (pts, alDropKeys ex2Pool ["k1"]) ∧
      pts.length = ["k1"].length -
        (["k1"].filter fun r => kptNaNAt ex2Pool r).length ∧
      pts = (["k1"].filter fun r => !kptNaNAt ex2Pool r).map
        (fun r => (labelAt ex2Pool r, convPointAt ex2Pool r)) ∧
      processIndividuals (build_relation_map ex2Items) exSkel
          [("r1", exRect "r1")] [] ex2Pool =
        (if ["k1"].length - (["k1"].filter fun r => kptNaNAt ex2Pool r).length > 0 then
          processIndividuals (build_relation_map ex2Items) exSkel [] ([] ++ [⟨pts, exSkel⟩])
            (alDropKeys ex2Pool ["k1"])
        else processIndividuals (build_relation_map ex2Items) exSkel [] []
            (alDropKeys ex2Pool ["k1"])) :=
  instance_points_count (build_relation_map ex2Items) exSkel "r1" (exRect "r1") [] []
    ex2Pool ["k1"] rfl (by simp) (by simp [alKeys, ex2Pool]) (by simp [alKeys, ex2Pool])
    (by
      intro r hr itr hitr
      have hr1 : r = "k1" := by simpa using hr
      subst hr1
      simp only [ex2Pool, alLookup, if_pos] at hitr
      rw [show itr = exKpt "k1" "head" (.num 50) (.num 50) by
        simpa using hitr.symm]
      exact ⟨.num 100, .num 100, ⟨.num 50, .num 50, ["head"]⟩, rfl, by simp [exKpt]⟩)
    (by simp [kptNaNAt, labelAt, alLookup, ex2Pool, exKpt, RItem.kptData, JNum.mul,
      JNum.div100, JNum.isnan])

/-! ### Round trip: arithmetic of the percentage conversion -/

theorem divMul100_isnan (x : JNum) (c : ℚ) (px : JNum) (h : divMul100 x c = some px) :
    px.isnan = x.isnan := by
  unfold divMul100 JNum.divBy at h
  by_cases hc : c = 0
  · simp [hc] at h
  · cases x with
    | nan =>
      simp only [hc, if_false] at h
      injection h with h1
      rw [← h1]
      rfl
    | num a =>
      simp only [hc, if_false] at h
      injection h with h1
      rw [← h1]
      rfl

theorem divMul100_ne_zero (x : JNum) (c : ℚ) (px : JNum) (h : divMul100 x c = some px) :
    c ≠ 0 := by
  intro hc
  unfold divMul100 JNum.divBy at h
  simp [hc] at h

theorem readPt_coord (x : JNum) (c : ℚ) (px : JNum) (hc : c ≠ 0)
    (h : divMul100 x c = some px) : (px.mul (.num c)).div100 = x := by
  unfold divMul100 JNum.divBy at h
  cases x with
  | nan =>
    simp only [hc, if_false] at h
    injection h with h1
    rw [← h1]
    rfl
  | num a =>
    simp only [hc, if_false] at h
    injection h with h1
    rw [← h1]
    show JNum.num (a / c * 100 * c / 100) = JNum.num a
    congr 1
    field_simp

theorem mulnum_div100_isnan (x : JNum) (c : ℚ) :
    ((x.mul (.num c)).div100).isnan = x.isnan := by
  cases x <;> rfl

theorem freshId_inj : Function.Injective freshId := by
  intro a b h
  unfold freshId at h
  have hdata : List.replicate (a + 1) 'u' = List.replicate (b + 1) 'u' :=
    congrArg String.data h
  have hlen := congrArg List.length hdata
  simp only [List.length_replicate] at hlen
  omega

/-! ### Round trip: what the writer emits -/

theorem writePointsLoop_ok (w h : Nat) (iid : String) (pts : List (String × Point)) :
    ∀ (items0 : List RItem) (m : Nat) (items : List RItem) (m' : Nat),
      writePointsLoop w h iid pts items0 m = .ok (items, m') →
      ∃ qs : List PtPlan,
        items = items0 ++ renderPts w h iid qs ∧
        m' = m + pts.length ∧
        qs.map PtPlan.pid = (List.range' m pts.length).map freshId ∧
        List.Forall₂ (ptMatches w h) qs pts := by
  induction pts with
  | nil =>
    intro items0 m items m' hw
    simp only [writePointsLoop, Except.ok.injEq, Prod.mk.injEq] at hw
    obtain ⟨h1, h2⟩ := hw
    subst h1
    subst h2
    exact ⟨[], by simp [renderPts], by simp, by simp, List.Forall₂.nil⟩
  | cons np rest ih =>
    obtain ⟨node, pt⟩ := np
    intro items0 m items m' hw
    cases hdx : pt.x.divBy (w : ℚ) with
    | none => simp [writePointsLoop, hdx] at hw
    | some vx =>
      cases hdy : pt.y.divBy (h : ℚ) with
      | none => simp [writePointsLoop, hdx, hdy] at hw
      | some vy =>
        simp only [writePointsLoop, hdx, hdy] at hw
        obtain ⟨qs, hitems, hm, hpids, hmat⟩ := ih _ _ _ _ hw
        refine ⟨⟨freshId m, node, vx.mul100, vy.mul100⟩ :: qs, ?_, ?_, ?_, ?_⟩
        · rw [hitems]
          simp [renderPts, kptItem, List.append_assoc]
        · simp only [List.length_cons]
          omega
        · simp only [List.length_cons, List.range'_succ, List.map_cons, hpids]
        · exact List.Forall₂.cons
            ⟨rfl, by simp [divMul100, hdx], by simp [divMul100, hdy]⟩ hmat

theorem write_instance_ok (w h : Nat) (inst : Instance) (n : Nat) (items : List RItem)
    (n' : Nat) (hw : write_instance w h inst n = .ok (items, n')) :
    ∃ qs : List PtPlan,
      items = renderInst w h ⟨freshId n, qs⟩ ∧
      n' = n + 1 + inst.points.length ∧
      qs.map PtPlan.pid = (List.range' (n + 1) inst.points.length).map freshId ∧
      instMatches w h ⟨freshId n, qs⟩ inst := by
  unfold write_instance at hw
  obtain ⟨qs, hitems, hm, hpids, hmat⟩ :=
    writePointsLoop_ok w h (freshId n) inst.points _ _ _ _ hw
  refine ⟨qs, ?_, by omega, hpids, hmat⟩
  rw [hitems]
  simp [renderInst]

theorem writeInstancesLoop_ok (w h : Nat) (insts : List Instance) :
    ∀ (items0 : List RItem) (n : Nat) (items : List RItem) (n' : Nat),
      writeInstancesLoop w h insts items0 n = .ok (items, n') →
      ∃ ps : List InstPlan,
        items = items0 ++ renderPlan w h ps ∧
        n ≤ n' ∧
        planIds ps = (List.range' n (n' - n)).map freshId ∧
        List.Forall₂ (instMatches w h) ps insts := by
  induction insts with
  | nil =>
    intro items0 n items n' hw
    simp only [writeInstancesLoop, Except.ok.injEq, Prod.mk.injEq] at hw
    obtain ⟨h1, h2⟩ := hw
    subst h1
    subst h2
    exact ⟨[], by simp [renderPlan], le_refl _, by simp [planIds], List.Forall₂.nil⟩
  | cons inst rest ih =>
    intro items0 n items n' hw
    cases hwi : write_instance w h inst n with
    | error e => simp [writeInstancesLoop, hwi] at hw
    | ok pr =>
      obtain ⟨newItems, n1⟩ := pr
      simp only [writeInstancesLoop, hwi] at hw
      obtain ⟨qs, hni, hn1, hpids1, hmat1⟩ := write_instance_ok w h inst n newItems n1 hwi
      obtain ⟨ps', hitems, hle, hpids, hmat⟩ := ih _ _ _ _ hw
      have hn1n : n1 = n + 1 + inst.points.length := hn1
      refine ⟨⟨freshId n, qs⟩ :: ps', ?_, by omega, ?_, List.Forall₂.cons hmat1 hmat⟩
      · rw [hitems, hni]
        simp [renderPlan, List.append_assoc]
      · have hsplit : List.range' n (n' - n) =
            n :: (List.range' (n + 1) inst.points.length ++ List.range' n1 (n' - n1)) := by
          rw [show n' - n = (inst.points.length + (n' - n1)) + 1 by omega, List.range'_succ]
          congr 1
          have harr := List.range'_append (n + 1) inst.points.length (n' - n1) 1
          rw [one_mul] at harr
          rw [show n + 1 + List.length inst.points = n1 by omega] at harr
          rw [show inst.points.length + (n' - n1) = (n' - n1) + inst.points.length by omega]
          exact harr.symm
        rw [hsplit]
        simp only [planIds, List.map_cons, List.map_append, hpids1, hpids]

theorem write_frame_ok (frame : LabeledFrame) (n : Nat) (t : Task) (n' : Nat)
    (hw : write_frame frame n = .ok (t, n')) :
    ∃ ps : List InstPlan,
      t = ⟨none, some [⟨renderPlan (frameDims frame).2 (frameDims frame).1 ps,
            false, false, 0, 1⟩], none,
           some ⟨frame.video.filename, frame.frame_idx, frame.video.shape⟩⟩ ∧
      planIds ps = (List.range' n (n' - n)).map freshId ∧
      List.Forall₂ (instMatches (frameDims frame).2 (frameDims frame).1)
        ps frame.instances := by
  unfold write_frame at hw
  cases hwl : writeInstancesLoop (frameDims frame).2 (frameDims frame).1
      frame.instances [] n with
  | error e => rw [hwl] at hw; simp at hw
  | ok pr =>
    obtain ⟨frame_annots, n1⟩ := pr
    rw [hwl] at hw
    simp only [Except.ok.injEq, Prod.mk.injEq] at hw
    obtain ⟨ht, hn1⟩ := hw
    obtain ⟨ps, hitems, hle, hpids, hmat⟩ :=
      writeInstancesLoop_ok (frameDims frame).2 (frameDims frame).1 frame.instances
        [] n frame_annots n1 hwl
    refine ⟨ps, ?_, ?_, hmat⟩
    · rw [← ht, hitems]
      simp
    · rw [hn1] at hpids
      exact hpids

/-! ### Round trip: how the reader sees a rendered plan -/

theorem type_kptItem (w h : Nat) (pid node : String) (px py : JNum) :
    (kptItem w h pid node px py).type = "keypointlabels" := rfl

theorem type_rectItem (w h : Nat) (iid : String) :
    (rectItem w h iid).type = "rectanglelabels" := rfl

theorem type_relItem (f t d : String) : (RItem.rel f t d).type = "relation" := rfl

theorem renderPts_filter_rect (w h : Nat) (iid : String) (qs : List PtPlan) :
    (renderPts w h iid qs).filter (fun d => d.type == "rectanglelabels") = [] := by
  induction qs with
  | nil => rfl
  | cons q rest ih =>
    simp [renderPts, List.filter_cons, type_kptItem, type_relItem, ih]

theorem renderPts_filter_kpt (w h : Nat) (iid : String) (qs : List PtPlan) :
    (renderPts w h iid qs).filter (fun d => d.type == "keypointlabels") =
      qs.map (fun q => kptItem w h q.pid q.node q.px q.py) := by
  induction qs with
  | nil => rfl
  | cons q rest ih =>
    simp [renderPts, List.filter_cons, type_kptItem, type_relItem, ih]

theorem renderPlan_filter_rect (w h : Nat) (ps : List InstPlan) :
    (renderPlan w h ps).filter (fun d => d.type == "rectanglelabels") =
      ps.map (fun p => rectItem w h p.iid) := by
  induction ps with
  | nil => rfl
  | cons p rest ih =>
    simp [renderPlan, renderInst, List.filter_append, List.filter_cons,
      type_rectItem, renderPts_filter_rect, ih]

theorem renderPlan_filter_kpt (w h : Nat) (ps : List InstPlan) :
    (renderPlan w h ps).filter (fun d => d.type == "keypointlabels") =
      planKptList w h ps := by
  induction ps with
  | nil => rfl
  | cons p rest ih =>
    simp [renderPlan, renderInst, List.filter_append, List.filter_cons,
      type_rectItem, renderPts_filter_kpt, ih, planKptList]

theorem itemsPairs_append (l1 l2 : List RItem) (p1 p2 : List (String × RItem))
    (h1 : itemsPairs l1 = some p1) (h2 : itemsPairs l2 = some p2) :
    itemsPairs (l1 ++ l2) = some (p1 ++ p2) := by
  induction l1 generalizing p1 with
  | nil =>
    simp only [itemsPairs] at h1
    cases h1
    simpa using h2
  | cons it rest ih =>
    cases hid : it.idOpt with
    | none => simp [itemsPairs, hid] at h1
    | some i =>
      cases hrest : itemsPairs rest with
      | none => simp [itemsPairs, hid, hrest] at h1
      | some pr =>
        simp only [itemsPairs, hid, hrest] at h1
        cases h1
        simp [itemsPairs, hid, ih pr hrest]

theorem idOpt_rectItem (w h : Nat) (iid : String) :
    (rectItem w h iid).idOpt = some iid := rfl

theorem idOpt_kptItem (w h : Nat) (pid node : String) (px py : JNum) :
    (kptItem w h pid node px py).idOpt = some pid := rfl

theorem itemsPairs_map_rect (w h : Nat) (ps : List InstPlan) :
    itemsPairs (ps.map fun p => rectItem w h p.iid) =
      some (ps.map fun p => (p.iid, rectItem w h p.iid)) := by
  induction ps with
  | nil => rfl
  | cons p rest ih =>
    simp only [List.map_cons]
    conv_lhs => unfold itemsPairs
    rw [idOpt_rectItem, ih]

theorem itemsPairs_map_kpt (w h : Nat) (qs : List PtPlan) :
    itemsPairs (qs.map fun q => kptItem w h q.pid q.node q.px q.py) =
      some (qs.map fun q => (q.pid, kptItem w h q.pid q.node q.px q.py)) := by
  induction qs with
  | nil => rfl
  | cons q rest ih =>
    simp only [List.map_cons]
    conv_lhs => unfold itemsPairs
    rw [idOpt_kptItem, ih]

theorem itemsPairs_planKptList (w h : Nat) (ps : List InstPlan) :
    itemsPairs (planKptList w h ps) = some (planPool w h ps) := by
  induction ps with
  | nil => rfl
  | cons p rest ih =>
    exact itemsPairs_append _ _ _ _ (itemsPairs_map_kpt w h p.pts) ih

theorem iids_sublist (ps : List InstPlan) :
    (ps.map InstPlan.iid).Sublist (planIds ps) := by
  induction ps with
  | nil => simp
  | cons p rest ih =>
    exact (ih.trans (List.sublist_append_right _ _)).cons₂ _

theorem pids_sublist (ps : List InstPlan) :
    (planPidList ps).Sublist (planIds ps) := by
  induction ps with
  | nil => simp [planPidList, planIds]
  | cons p rest ih =>
    exact ((List.append_sublist_append_left _).mpr ih).cons _

theorem relPairs_append (l1 l2 : List RItem) :
    relPairs (l1 ++ l2) = relPairs l1 ++ relPairs l2 := by
  induction l1 with
  | nil => rfl
  | cons it rest ih => cases it <;> simp [relPairs, ih]

theorem relPairs_renderPts (w h : Nat) (iid : String) (qs : List PtPlan) :
    relPairs (renderPts w h iid qs) = qs.map (fun q => (q.pid, iid)) := by
  induction qs with
  | nil => rfl
  | cons q rest ih => simp [renderPts, relPairs, kptItem, ih]

theorem relPairs_renderPlan (w h : Nat) (ps : List InstPlan) :
    relPairs (renderPlan w h ps) = planEdges ps := by
  induction ps with
  | nil => rfl
  | cons p rest ih =>
    simp [renderPlan, renderInst, relPairs_append, relPairs, rectItem,
      relPairs_renderPts, planEdges, ih]

theorem relContrib_append (x : String) (E1 E2 : List (String × String)) :
    relContrib x (E1 ++ E2) = relContrib x E1 ++ relContrib x E2 := by
  induction E1 with
  | nil => rfl
  | cons ft rest ih =>
    obtain ⟨f, t⟩ := ft
    simp [relContrib, ih, List.append_assoc]

theorem relContrib_nil_of (x : String) (E : List (String × String))
    (h : ∀ p ∈ E, p.1 ≠ x ∧ p.2 ≠ x) : relContrib x E = [] := by
  induction E with
  | nil => rfl
  | cons ft rest ih =>
    obtain ⟨f, t⟩ := ft
    have hh := h (f, t) (by simp)
    simp [relContrib, hh.1, hh.2, ih (fun p hp => h p (by simp [hp]))]

theorem relContrib_block (iid : String) (qs : List PtPlan)
    (h : ∀ q ∈ qs, q.pid ≠ iid) :
    relContrib iid (qs.map fun q => (q.pid, iid)) = qs.map PtPlan.pid := by
  induction qs with
  | nil => rfl
  | cons q rest ih =>
    simp [relContrib, h q (by simp), ih (fun q2 hq2 => h q2 (by simp [hq2]))]

theorem mem_planIds_of_mem (ps : List InstPlan) (p : InstPlan) (hp : p ∈ ps) :
    p.iid ∈ planIds ps := by
  induction ps with
  | nil => simp at hp
  | cons p0 rest ih =>
    rcases List.mem_cons.mp hp with heq | hmem
    · subst heq; simp [planIds]
    · simp [planIds, ih hmem]

theorem mem_edge_of (ps : List InstPlan) (p : InstPlan) (q : PtPlan)
    (hp : p ∈ ps) (hq : q ∈ p.pts) : (q.pid, p.iid) ∈ planEdges ps := by
  induction ps with
  | nil => simp at hp
  | cons p0 rest ih =>
    rcases List.mem_cons.mp hp with heq | hmem
    · subst heq
      simp only [planEdges, List.mem_append]
      exact Or.inl (List.mem_map_of_mem _ hq)
    · simp only [planEdges, List.mem_append]
      exact Or.inr (ih hmem)

theorem planEdges_comp_mem (ps : List InstPlan) (f t : String)
    (h : (f, t) ∈ planEdges ps) : f ∈ planIds ps ∧ t ∈ planIds ps := by
  induction ps with
  | nil => simp [planEdges] at h
  | cons p0 rest ih =>
    simp only [planEdges, List.mem_append] at h
    rcases h with h | h
    · obtain ⟨q, hq, heq⟩ := List.mem_map.mp h
      injection heq with he1 he2
      constructor
      · rw [← he1]
        simp [planIds, List.mem_append, List.mem_map_of_mem PtPlan.pid hq]
      · rw [← he2]
        simp [planIds]
    · obtain ⟨h1, h2⟩ := ih h
      exact ⟨by simp [planIds, h1], by simp [planIds, h2]⟩

theorem relContrib_plan (ps : List InstPlan) (p : InstPlan)
    (hids : (planIds ps).Nodup) (hp : p ∈ ps) :
    relContrib p.iid (planEdges ps) = p.pts.map PtPlan.pid := by
  induction ps with
  | nil => simp at hp
  | cons p0 rest ih =>
    have hids1 : (p0.pts.map PtPlan.pid ++ planIds rest).Nodup :=
      (List.nodup_cons.mp hids).2
    have hiid0 : p0.iid ∉ p0.pts.map PtPlan.pid ++ planIds rest :=
      (List.nodup_cons.mp hids).1
    rcases List.mem_cons.mp hp with heq | hmem
    · subst heq
      have hblock : relContrib p.iid (p.pts.map fun q => (q.pid, p.iid)) =
          p.pts.map PtPlan.pid := by
        apply relContrib_block
        intro q hq heq2
        exact hiid0 (by
          rw [← heq2]
          exact List.mem_append_left _ (List.mem_map_of_mem PtPlan.pid hq))
      have hrest : relContrib p.iid (planEdges rest) = [] := by
        apply relContrib_nil_of
        intro pr hpr
        obtain ⟨f, t⟩ := pr
        obtain ⟨hf, ht⟩ := planEdges_comp_mem rest f t hpr
        have hnotr : p.iid ∉ planIds rest := fun hmem2 =>
          hiid0 (List.mem_append_right _ hmem2)
        exact ⟨fun hh => hnotr (hh ▸ hf), fun hh => hnotr (hh ▸ ht)⟩
      simp only [planEdges]
      rw [relContrib_append, hblock, hrest, List.append_nil]
    · have hnd : (planIds rest).Nodup := ((List.nodup_append.mp hids1)).2.1
      have hdisj := (List.nodup_append.mp hids1).2.2
      have hmemid : p.iid ∈ planIds rest := mem_planIds_of_mem rest p hmem
      have hblock : relContrib p.iid (p0.pts.map fun q => (q.pid, p0.iid)) = [] := by
        apply relContrib_nil_of
        intro pr hpr
        obtain ⟨q, hq, heq⟩ := List.mem_map.mp hpr
        subst heq
        constructor
        · show q.pid ≠ p.iid
          intro hh
          exact hdisj (hh ▸ (List.mem_map_of_mem PtPlan.pid hq)) hmemid
        · show p0.iid ≠ p.iid
          intro hh
          exact hiid0 (hh.symm ▸ (List.mem_append_right _ hmemid))
      simp only [planEdges]
      rw [relContrib_append, hblock, List.nil_append]
      exact ih hnd hmem

theorem plan_lookup_iid (w h : Nat) (ps : List InstPlan)
    (hids : (planIds ps).Nodup) (p : InstPlan) (hp : p ∈ ps) (hne : p.pts ≠ []) :
    alLookup (build_relation_map (renderPlan w h ps)) p.iid =
      some (p.pts.map PtPlan.pid) := by
  rw [build_relation_map_lookup, relPairs_renderPlan]
  obtain ⟨q0, hq0⟩ : ∃ q0, q0 ∈ p.pts := by
    cases hpts : p.pts with
    | nil => exact absurd hpts hne
    | cons q0 qs => exact ⟨q0, by simp [hpts]⟩
  have htouch : relTouches p.iid (planEdges ps) = true :=
    relTouches_true_of_mem _ (q0.pid, p.iid) (mem_edge_of ps p q0 hp hq0) _ (Or.inr rfl)
  rw [if_pos htouch, relContrib_plan ps p hids hp]

theorem alKeys_planPool (w h : Nat) (ps : List InstPlan) :
    alKeys (planPool w h ps) = planPidList ps := by
  induction ps with
  | nil => rfl
  | cons p rest ih =>
    simp only [planPool, planPidList, alKeys, List.map_append, List.map_map] at ih ⊢
    rw [ih]
    simp [Function.comp]

theorem alLookup_append_left {α : Type} (l1 l2 : AList α) (k : String)
    (h : k ∈ alKeys l1) : alLookup (l1 ++ l2) k = alLookup l1 k := by
  induction l1 with
  | nil => simp [alKeys] at h
  | cons kv rest ih =>
    obtain ⟨k0, v0⟩ := kv
    by_cases h0 : k0 = k
    · simp [alLookup, h0]
    · simp only [alKeys, List.map_cons, List.mem_cons] at h
      rcases h with h | h
      · exact absurd h.symm h0
      · simp [alLookup, h0, ih h]

theorem alLookup_append_right {α : Type} (l1 l2 : AList α) (k : String)
    (h : k ∉ alKeys l1) : alLookup (l1 ++ l2) k = alLookup l2 k := by
  induction l1 with
  | nil => simp
  | cons kv rest ih =>
    obtain ⟨k0, v0⟩ := kv
    simp only [alKeys, List.map_cons, List.mem_cons] at h
    push_neg at h
    simp [alLookup, h.1.symm, ih (by simpa [alKeys] using h.2)]

theorem block_lookup (w h : Nat) (qs : List PtPlan)
    (hnd : (qs.map PtPlan.pid).Nodup) (q : PtPlan) (hq : q ∈ qs) :
    alLookup (qs.map fun q2 => (q2.pid, kptItem w h q2.pid q2.node q2.px q2.py)) q.pid =
      some (kptItem w h q.pid q.node q.px q.py) := by
  induction qs with
  | nil => simp at hq
  | cons q0 rest ih =>
    rcases List.mem_cons.mp hq with heq | hmem
    · subst heq
      simp [alLookup]
    · have hne : ¬ q0.pid = q.pid := by
        intro hh
        exact (List.nodup_cons.mp hnd).1 (hh ▸ List.mem_map_of_mem PtPlan.pid hmem)
      simp [alLookup, hne, ih (List.nodup_cons.mp hnd).2 hmem]

theorem alDropKeys_planPool (w h : Nat) (p : InstPlan) (rest : List InstPlan)
    (hnd : (planPidList (p :: rest)).Nodup) :
    alDropKeys (planPool w h (p :: rest)) (p.pts.map PtPlan.pid) = planPool w h rest := by
  have hnd2 := hnd
  simp only [planPidList] at hnd2
  have hdisj := (List.nodup_append.mp hnd2).2.2
  show alDropKeys ((p.pts.map fun q => (q.pid, kptItem w h q.pid q.node q.px q.py)) ++
    planPool w h rest) (p.pts.map PtPlan.pid) = planPool w h rest
  unfold alDropKeys
  rw [List.filter_append]
  have h1 : (p.pts.map fun q => (q.pid, kptItem w h q.pid q.node q.px q.py)).filter
      (fun kv => decide (kv.1 ∉ p.pts.map PtPlan.pid)) = [] := by
    rw [List.filter_eq_nil_iff]
    intro kv hkv
    obtain ⟨q, hq, heq⟩ := List.mem_map.mp hkv
    simp only [decide_eq_true_iff, not_not]
    rw [← heq]
    exact List.mem_map_of_mem PtPlan.pid hq
  have h2 : (planPool w h rest).filter
      (fun kv => decide (kv.1 ∉ p.pts.map PtPlan.pid)) = planPool w h rest := by
    apply List.filter_eq_self.mpr
    intro kv hkv
    simp only [decide_eq_true_iff]
    intro hmem
    have hin : kv.1 ∈ planPidList rest := by
      rw [← alKeys_planPool w h rest]
      exact List.mem_map_of_mem Prod.fst hkv
    exact hdisj hmem hin
  rw [h1, h2, List.nil_append]

theorem alKeys_block (w h : Nat) (qs : List PtPlan) :
    alKeys (qs.map fun q => (q.pid, kptItem w h q.pid q.node q.px q.py)) =
      qs.map PtPlan.pid := by
  simp [alKeys, List.map_map, Function.comp]

theorem pool_lookup_pid (w h : Nat) (p : InstPlan) (rest : List InstPlan)
    (hnd : (p.pts.map PtPlan.pid).Nodup) (q : PtPlan) (hq : q ∈ p.pts) :
    alLookup (planPool w h (p :: rest)) q.pid =
      some (kptItem w h q.pid q.node q.px q.py) := by
  show alLookup ((p.pts.map fun q2 => (q2.pid, kptItem w h q2.pid q2.node q2.px q2.py)) ++
      planPool w h rest) q.pid = _
  rw [alLookup_append_left]
  · exact block_lookup w h p.pts hnd q hq
  · rw [alKeys_block]
    exact List.mem_map_of_mem PtPlan.pid hq

theorem kptData_kptItem (w h : Nat) (pid node : String) (px py : JNum) :
    (kptItem w h pid node px py).kptData =
      some (.num (w : ℚ), .num (h : ℚ), ⟨px, py, [node]⟩) := rfl

theorem kptNaNAt_pool (w h : Nat) (p : InstPlan) (rest : List InstPlan)
    (hnd : (p.pts.map PtPlan.pid).Nodup) (q : PtPlan) (hq : q ∈ p.pts) :
    kptNaNAt (planPool w h (p :: rest)) q.pid = (q.px.isnan || q.py.isnan) := by
  unfold kptNaNAt
  rw [pool_lookup_pid w h p rest hnd q hq]
  show (((q.px.mul (.num (w : ℚ))).div100).isnan || ((q.py.mul (.num (h : ℚ))).div100).isnan)
      = (q.px.isnan || q.py.isnan)
  rw [mulnum_div100_isnan, mulnum_div100_isnan]

theorem labelAt_pool (w h : Nat) (p : InstPlan) (rest : List InstPlan)
    (hnd : (p.pts.map PtPlan.pid).Nodup) (q : PtPlan) (hq : q ∈ p.pts) :
    labelAt (planPool w h (p :: rest)) q.pid = q.node := by
  unfold labelAt
  rw [pool_lookup_pid w h p rest hnd q hq]
  rfl

theorem convPointAt_pool (w h : Nat) (p : InstPlan) (rest : List InstPlan)
    (hnd : (p.pts.map PtPlan.pid).Nodup) (q : PtPlan) (hq : q ∈ p.pts) :
    convPointAt (planPool w h (p :: rest)) q.pid = readPt w h q := by
  unfold convPointAt
  rw [pool_lookup_pid w h p rest hnd q hq]
  rfl

theorem claim_rendered (w h : Nat) (p : InstPlan) (rest : List InstPlan)
    (hnd : (planPidList (p :: rest)).Nodup)
    (hlbl : (p.pts.map PtPlan.node).Nodup) :
    claimKeypoints (p.pts.map PtPlan.pid) [] (planPool w h (p :: rest)) =
      .ok (((p.pts.filter fun q => !(q.px.isnan || q.py.isnan)).map
             fun q => (q.node, readPt w h q)),
           planPool w h rest) := by
  have hblocknd : (p.pts.map PtPlan.pid).Nodup := by
    simp only [planPidList] at hnd
    exact (List.nodup_append.mp hnd).1
  have hkeys : alKeys (planPool w h (p :: rest)) = planPidList (p :: rest) :=
    alKeys_planPool w h (p :: rest)
  have h2 : (alKeys (planPool w h (p :: rest))).Nodup := by
    rw [hkeys]
    exact hnd
  have h3 : ∀ r ∈ p.pts.map PtPlan.pid, r ∈ alKeys (planPool w h (p :: rest)) := by
    intro r hr
    rw [hkeys]
    show r ∈ p.pts.map PtPlan.pid ++ planPidList rest
    exact List.mem_append_left _ hr
  have h4 : ∀ r ∈ p.pts.map PtPlan.pid, ∀ itr,
      alLookup (planPool w h (p :: rest)) r = some itr →
      ∃ ow oh v, itr.kptData = some (ow, oh, v) ∧ v.keypointlabels ≠ [] := by
    intro r hr itr hitr
    obtain ⟨q, hq, hqe⟩ := List.mem_map.mp hr
    subst hqe
    rw [pool_lookup_pid w h p rest hblocknd q hq] at hitr
    cases hitr
    exact ⟨.num (w : ℚ), .num (h : ℚ), ⟨q.px, q.py, [q.node]⟩, rfl, by simp⟩
  have hfm : (p.pts.map PtPlan.pid).filter
      (fun r => !kptNaNAt (planPool w h (p :: rest)) r) =
      (p.pts.filter fun q => !(q.px.isnan || q.py.isnan)).map PtPlan.pid := by
    rw [List.filter_map]
    congr 1
    apply List.filter_congr
    intro q hq
    simp only [Function.comp_apply]
    rw [kptNaNAt_pool w h p rest hblocknd q hq]
  have hmm : ((p.pts.filter fun q => !(q.px.isnan || q.py.isnan)).map PtPlan.pid).map
      (fun r => (labelAt (planPool w h (p :: rest)) r,
                 convPointAt (planPool w h (p :: rest)) r)) =
      (p.pts.filter fun q => !(q.px.isnan || q.py.isnan)).map
        fun q => (q.node, readPt w h q) := by
    rw [List.map_map]
    apply List.map_congr_left
    intro q hq
    have hq2 : q ∈ p.pts := List.mem_of_mem_filter hq
    simp only [Function.comp_apply]
    rw [labelAt_pool w h p rest hblocknd q hq2, convPointAt_pool w h p rest hblocknd q hq2]
  have h5 : (alKeys ([] : AList Point) ++
      ((p.pts.map PtPlan.pid).filter
        (fun r => !kptNaNAt (planPool w h (p :: rest)) r)).map
        (labelAt (planPool w h (p :: rest)))).Nodup := by
    simp only [alKeys, List.map_nil, List.nil_append]
    rw [hfm, List.map_map]
    have hlm : (p.pts.filter fun q => !(q.px.isnan || q.py.isnan)).map
        (labelAt (planPool w h (p :: rest)) ∘ PtPlan.pid) =
        (p.pts.filter fun q => !(q.px.isnan || q.py.isnan)).map PtPlan.node := by
      apply List.map_congr_left
      intro q hq
      simp only [Function.comp_apply]
      exact labelAt_pool w h p rest hblocknd q (List.mem_of_mem_filter hq)
    rw [hlm]
    exact ((List.filter_sublist _).map PtPlan.node).nodup hlbl
  rw [claimKeypoints_eq (p.pts.map PtPlan.pid) [] (planPool w h (p :: rest))
       hblocknd h2 h3 h4 h5,
     alDropKeys_planPool w h p rest hnd, hfm, hmm, List.nil_append]

theorem processIndividuals_cons_ok (relations : AList (List String)) (skel : Skeleton)
    (iid : String) (it : RItem) (rest : List (String × RItem)) (insts : List Instance)
    (pool : AList RItem) (points : AList Point) (pool1 : AList RItem)
    (hone : processOneIndividual relations pool iid = .ok (points, pool1))
    (hpos : 0 < points.length) :
    processIndividuals relations skel ((iid, it) :: rest) insts pool =
      processIndividuals relations skel rest (insts ++ [⟨points, skel⟩]) pool1 := by
  conv_lhs => unfold processIndividuals
  simp only [hone, gt_iff_lt, hpos, if_true]

theorem process_rendered (w h : Nat) (skel : Skeleton) (ps0 : List InstPlan)
    (hids0 : (planIds ps0).Nodup) (ps : List InstPlan) :
    ∀ insts : List Instance,
      (∀ p ∈ ps, p ∈ ps0) →
      (planIds ps).Nodup →
      (∀ p ∈ ps, (p.pts.map PtPlan.node).Nodup) →
      (∀ p ∈ ps, ∃ q ∈ p.pts, (q.px.isnan || q.py.isnan) = false) →
      processIndividuals (build_relation_map (renderPlan w h ps0)) skel
        (ps.map fun p => (p.iid, rectItem w h p.iid)) insts (planPool w h ps) =
        .ok (insts ++ ps.map (readInst w h skel), []) := by
  induction ps with
  | nil =>
    intro insts _ _ _ _
    simp [processIndividuals, planPool]
  | cons p rest ih =>
    intro insts hsub hids hlbl hnn
    have hp0 : p ∈ ps0 := hsub p (by simp)
    obtain ⟨q0, hq0, hq0f⟩ := hnn p (by simp)
    have hne : p.pts ≠ [] := by
      intro hh
      rw [hh] at hq0
      simp at hq0
    have hpidnd : (planPidList (p :: rest)).Nodup := (pids_sublist (p :: rest)).nodup hids
    have hrel := plan_lookup_iid w h ps0 hids0 p hp0 hne
    have hclaim := claim_rendered w h p rest hpidnd (hlbl p (by simp))
    have hone : processOneIndividual (build_relation_map (renderPlan w h ps0))
        (planPool w h (p :: rest)) p.iid =
        .ok ((p.pts.filter fun q => !(q.px.isnan || q.py.isnan)).map
              (fun q => (q.node, readPt w h q)),
             planPool w h rest) := by
      unfold processOneIndividual
      rw [hrel]
      exact hclaim
    have hlen : 0 < ((p.pts.filter fun q => !(q.px.isnan || q.py.isnan)).map
        (fun q => (q.node, readPt w h q))).length := by
      rw [List.length_map]
      exact List.length_pos_of_mem (List.mem_filter.mpr ⟨hq0, by simp [hq0f]⟩)
    have hidsr : (planIds rest).Nodup := by
      simp only [planIds] at hids
      exact (List.nodup_append.mp (List.nodup_cons.mp hids).2).2.1
    rw [List.map_cons,
        processIndividuals_cons_ok _ _ _ _ _ _ _ _ _ hone hlen,
        ih _ (fun p2 hp2 => hsub p2 (by simp [hp2])) hidsr
           (fun p2 hp2 => hlbl p2 (by simp [hp2]))
           (fun p2 hp2 => hnn p2 (by simp [hp2]))]
    simp [readInst, List.append_assoc]

theorem parseTaskInner_rendered (w h : Nat) (skel : Skeleton) (ps : List InstPlan)
    (task : Task) (vm : VideoMeta) (hvm : task.meta_video = some vm)
    (hids : (planIds ps).Nodup)
    (hlbl : ∀ p ∈ ps, (p.pts.map PtPlan.node).Nodup)
    (hnn : ∀ p ∈ ps, ∃ q ∈ p.pts, (q.px.isnan || q.py.isnan) = false) :
    parseTaskInner [⟨renderPlan w h ps, false, false, 0, 1⟩] task skel =
      .ok ⟨⟨vm.filename, vm.shape⟩, vm.frame_idx, ps.map (readInst w h skel)⟩ := by
  have hfi1 : filter_and_index (renderPlan w h ps) "rectanglelabels" =
      .ok (ps.map fun p => (p.iid, rectItem w h p.iid)) := by
    have hnd2 : (alKeys ([] : AList RItem) ++
        (ps.map fun p => (p.iid, rectItem w h p.iid)).map Prod.fst).Nodup := by
      have hmapeq : (ps.map fun p => (p.iid, rectItem w h p.iid)).map Prod.fst =
          ps.map InstPlan.iid := by
        simp [List.map_map, Function.comp]
      rw [hmapeq]
      simpa [alKeys] using (iids_sublist ps).nodup hids
    have h1 := indexLoop_pairs (ps.map fun p => rectItem w h p.iid)
      (ps.map fun p => (p.iid, rectItem w h p.iid)) [] (itemsPairs_map_rect w h ps) hnd2
    unfold filter_and_index
    rw [renderPlan_filter_rect]
    simpa using h1
  have hfi2 : filter_and_index (renderPlan w h ps) "keypointlabels" =
      .ok (planPool w h ps) := by
    have hnd2 : (alKeys ([] : AList RItem) ++ (planPool w h ps).map Prod.fst).Nodup := by
      show (alKeys ([] : AList RItem) ++ alKeys (planPool w h ps)).Nodup
      rw [alKeys_planPool]
      simpa [alKeys] using (pids_sublist ps).nodup hids
    have h1 := indexLoop_pairs (planKptList w h ps) (planPool w h ps) []
      (itemsPairs_planKptList w h ps) hnd2
    unfold filter_and_index
    rw [renderPlan_filter_kpt]
    simpa using h1
  have hproc := process_rendered w h skel ps hids ps [] (fun p hp => hp) hids hlbl hnn
  rw [List.nil_append] at hproc
  simp only [parseTaskInner, hfi1, hfi2, hproc, leftoverLoop, List.length_nil,
    gt_iff_lt, lt_self_iff_false, if_false, video_from_task, hvm]

theorem forall2_mem_left {α β : Type} {R : α → β → Prop} {l1 : List α} {l2 : List β}
    (h : List.Forall₂ R l1 l2) (a : α) (ha : a ∈ l1) : ∃ b ∈ l2, R a b := by
  induction h with
  | nil => simp at ha
  | cons h1 h2 ih =>
    rcases List.mem_cons.mp ha with heq | hmem
    · subst heq
      exact ⟨_, by simp, h1⟩
    · obtain ⟨b, hb, hr⟩ := ih hmem
      exact ⟨b, by simp [hb], hr⟩

theorem forall2_mem_right {α β : Type} {R : α → β → Prop} {l1 : List α} {l2 : List β}
    (h : List.Forall₂ R l1 l2) (b : β) (hb : b ∈ l2) : ∃ a ∈ l1, R a b := by
  induction h with
  | nil => simp at hb
  | cons h1 h2 ih =>
    rcases List.mem_cons.mp hb with heq | hmem
    · subst heq
      exact ⟨_, by simp, h1⟩
    · obtain ⟨a, ha, hr⟩ := ih hmem
      exact ⟨a, by simp [ha], hr⟩

theorem forall2_map_left {α β γ : Type} {R : γ → β → Prop} (f : α → γ)
    {l1 : List α} {l2 : List β}
    (h : List.Forall₂ (fun a b => R (f a) b) l1 l2) : List.Forall₂ R (l1.map f) l2 := by
  induction h with
  | nil => exact List.Forall₂.nil
  | cons h1 h2 ih => exact List.Forall₂.cons h1 ih

theorem forall2_nodes (w h : Nat) (qs : List PtPlan) (nps : List (String × Point))
    (hm : List.Forall₂ (ptMatches w h) qs nps) :
    qs.map PtPlan.node = nps.map Prod.fst := by
  induction hm with
  | nil => rfl
  | cons h1 h2 ih => simp only [List.map_cons, ih, h1.1]

theorem instMatches_nodes (w h : Nat) (p : InstPlan) (inst : Instance)
    (hm : instMatches w h p inst) : p.pts.map PtPlan.node = alKeys inst.points := by
  unfold instMatches at hm
  exact forall2_nodes w h p.pts inst.points hm

theorem coords_filter_map (w h : Nat) (qs : List PtPlan) (nps : List (String × Point))
    (hm : List.Forall₂ (ptMatches w h) qs nps) :
    ((qs.filter fun q => !(q.px.isnan || q.py.isnan)).map
        (fun q => (q.node, readPt w h q))).map (fun np => (np.1, np.2.x, np.2.y)) =
      (nps.filter fun np => Point.nonNaN np.2).map (fun np => (np.1, np.2.x, np.2.y)) := by
  induction hm with
  | nil => rfl
  | @cons q np qs2 nps2 hqnp hrest ih =>
    obtain ⟨hnode, hdx, hdy⟩ := hqnp
    have hx := divMul100_isnan _ _ _ hdx
    have hy := divMul100_isnan _ _ _ hdy
    have hpred : (!(q.px.isnan || q.py.isnan)) = Point.nonNaN np.2 := by
      unfold Point.nonNaN
      rw [hx, hy, Bool.not_or]
    simp only [List.filter_cons, hpred]
    cases hc : Point.nonNaN np.2
    · rw [if_neg Bool.false_ne_true, if_neg Bool.false_ne_true]
      exact ih
    · rw [if_pos rfl, if_pos rfl]
      simp only [List.map_cons]
      rw [ih]
      congr 1
      show (q.node, (q.px.mul (.num (w : ℚ))).div100, (q.py.mul (.num (h : ℚ))).div100)
          = (np.1, np.2.x, np.2.y)
      rw [hnode, readPt_coord _ _ _ (divMul100_ne_zero _ _ _ hdx) hdx,
          readPt_coord _ _ _ (divMul100_ne_zero _ _ _ hdy) hdy]

theorem readInst_coords (w h : Nat) (skel : Skeleton) (p : InstPlan) (inst : Instance)
    (hm : instMatches w h p inst) : instRel (readInst w h skel p) inst := by
  unfold instMatches at hm
  show coordsOf (readInst w h skel p) = nonNaNCoordsOf inst
  exact coords_filter_map w h p.pts inst.points hm

theorem frame_round_trip (skel : Skeleton) (frame : LabeledFrame) (n n' : Nat) (t : Task)
    (hok : ∀ inst ∈ frame.instances, instOK inst)
    (hw : write_frame frame n = .ok (t, n')) :
    selectKey t = .ok .annKey ∧
    ∃ f2, task_to_labeled_frame t skel .annKey = .ok f2 ∧ frameRel f2 frame := by
  obtain ⟨ps, ht, hpids, hmat⟩ := write_frame_ok frame n t n' hw
  subst ht
  refine ⟨rfl, ?_⟩
  have hids : (planIds ps).Nodup := by
    rw [hpids]
    exact List.Nodup.map freshId_inj (List.nodup_range' _ _)
  have hlbl : ∀ p ∈ ps, (p.pts.map PtPlan.node).Nodup := by
    intro p hp
    obtain ⟨inst, hinst, hm⟩ := forall2_mem_left hmat p hp
    rw [instMatches_nodes _ _ p inst hm]
    exact (hok inst hinst).1
  have hnn : ∀ p ∈ ps, ∃ q ∈ p.pts, (q.px.isnan || q.py.isnan) = false := by
    intro p hp
    obtain ⟨inst, hinst, hm⟩ := forall2_mem_left hmat p hp
    obtain ⟨np, hnp, hnn2⟩ := (hok inst hinst).2
    obtain ⟨q, hq, hqm⟩ := forall2_mem_right hm np hnp
    obtain ⟨hnode, hdx, hdy⟩ := hqm
    have hx := divMul100_isnan _ _ _ hdx
    have hy := divMul100_isnan _ _ _ hdy
    refine ⟨q, hq, ?_⟩
    rw [hx, hy]
    unfold Point.nonNaN at hnn2
    simp only [Bool.and_eq_true, Bool.not_eq_true'] at hnn2
    simp [hnn2.1, hnn2.2]
  have hparse := parseTaskInner_rendered (frameDims frame).2 (frameDims frame).1 skel ps
    ⟨none, some [⟨renderPlan (frameDims frame).2 (frameDims frame).1 ps,
        false, false, 0, 1⟩], none,
      some ⟨frame.video.filename, frame.frame_idx, frame.video.shape⟩⟩
    ⟨frame.video.filename, frame.frame_idx, frame.video.shape⟩ rfl hids hlbl hnn
  refine ⟨⟨⟨frame.video.filename, frame.video.shape⟩, frame.frame_idx,
      ps.map (readInst (frameDims frame).2 (frameDims frame).1 skel)⟩, ?_, ?_, ?_, ?_, ?_⟩
  · unfold task_to_labeled_frame
    simp only [Task.get, hparse]
  · rfl
  · rfl
  · rw [List.length_map]
    exact hmat.length_eq
  · exact forall2_map_left _ (hmat.imp fun p inst hm => readInst_coords _ _ skel p inst hm)

theorem writeTasksLoop_ok (frames : List LabeledFrame) :
    ∀ (tasks0 : List Task) (n : Nat) (tasks : List Task),
      writeTasksLoop frames tasks0 n = .ok tasks →
      ∃ new, tasks = tasks0 ++ new ∧
        List.Forall₂ (fun t f => ∃ m m2, write_frame f m = .ok (t, m2)) new frames := by
  induction frames with
  | nil =>
    intro tasks0 n tasks hw
    simp only [writeTasksLoop] at hw
    cases hw
    exact ⟨[], by simp, List.Forall₂.nil⟩
  | cons f rest ih =>
    intro tasks0 n tasks hw
    cases hwf : write_frame f n with
    | error e => simp [writeTasksLoop, hwf] at hw
    | ok pr =>
      obtain ⟨t, n1⟩ := pr
      simp only [writeTasksLoop, hwf] at hw
      obtain ⟨new, htasks, hmat⟩ := ih _ _ _ hw
      refine ⟨t :: new, ?_, List.Forall₂.cons ⟨n, n1, hwf⟩ hmat⟩
      rw [htasks]
      simp

theorem parseTasksLoop_round (skel : Skeleton) (newTasks : List Task)
    (frames : List LabeledFrame)
    (hmat : List.Forall₂ (fun t f => ∃ m m2, write_frame f m = .ok (t, m2))
      newTasks frames) :
    ∀ frames0 : List LabeledFrame,
      (∀ f ∈ frames, ∀ inst ∈ f.instances, instOK inst) →
      ∃ frames2, parseTasksLoop skel newTasks frames0 = .ok (frames0 ++ frames2) ∧
        List.Forall₂ frameRel frames2 frames := by
  induction hmat with
  | nil =>
    intro frames0 _
    exact ⟨[], by simp [parseTasksLoop], List.Forall₂.nil⟩
  | @cons t f ts fs h1 hrest ih =>
    intro frames0 hok
    obtain ⟨m, m2, hwf⟩ := h1
    obtain ⟨hsel, f2, hparse, hrel⟩ := frame_round_trip skel f m m2 t (hok f (by simp)) hwf
    obtain ⟨frames2, hloop, hrels⟩ := ih (frames0 ++ [f2])
      (fun g hg => hok g (by simp [hg]))
    refine ⟨f2 :: frames2, ?_, List.Forall₂.cons hrel hrels⟩
    simp only [parseTasksLoop, hsel, hparse, hloop]
    simp [List.append_assoc]

/-- C1: round-trip shape.  CORRECTED.  Writing a collection with `write_labels`
and re-parsing the result with `parse_tasks` reproduces the frame count, the
per-frame instance counts and the named non-NaN keypoint coordinates — but only
when every instance has pairwise-distinct node names and at least one fully
non-NaN point (`instOK`).  Without that proviso the claim is false:
an instance whose points are all NaN is silently dropped on re-parsing
(`round_trip_cex`), so the instance count shrinks. -/
theorem round_trip (labels : Labels) (skeleton : Skeleton) (tasks : List Task)
    (hok : ∀ f ∈ labels.labeled_frames, ∀ inst ∈ f.instances, instOK inst)
    (hw : write_labels labels = .ok tasks) :
    ∃ labels2 : Labels, parse_tasks tasks skeleton = .ok labels2 ∧
      labels2.labeled_frames.length = labels.labeled_frames.length ∧
      List.Forall₂ frameRel labels2.labeled_frames labels.labeled_frames := by
  unfold write_labels at hw
  obtain ⟨new, htasks, hmat⟩ := writeTasksLoop_ok labels.labeled_frames [] 0 tasks hw
  rw [List.nil_append] at htasks
  obtain ⟨frames2, hloop, hrels⟩ :=
    parseTasksLoop_round skeleton new labels.labeled_frames hmat [] hok
  refine ⟨⟨frames2⟩, ?_, hrels.length_eq, hrels⟩
  unfold parse_tasks
  rw [htasks]
  simp only [hloop, List.nil_append]

/-- Counterexample to the literal C1 round-trip claim: the collection
`exC1Labels` has one frame with one instance, but after writing it with
`write_labels` and re-parsing with `parse_tasks` the frame comes back with no
instances at all, because the instance's only keypoint is NaN in both axes and
is dropped by the reader. -/
theorem round_trip_cex :
    write_labels exC1Labels = .ok [exC1Task] ∧
    exC1Labels = ⟨[⟨⟨"v.mp4", some (1, 2, 2, 1)⟩, 0,
      [⟨[("head", ⟨.nan, .nan, none⟩)], exSkel⟩]⟩]⟩ ∧
    parse_tasks [exC1Task] exSkel = .ok ⟨[⟨⟨"v.mp4", some (1, 2, 2, 1)⟩, 0, []⟩]⟩ := by
  refine ⟨?_, rfl, ?_⟩
  · simp [write_labels, writeTasksLoop, write_frame, frameDims, writeInstancesLoop,
      write_instance, writePointsLoop, JNum.divBy, JNum.mul100, exC1Labels, exC1Task]
  · simp [parse_tasks, parseTasksLoop, selectKey, exC1Task, task_to_labeled_frame,
      Task.get, parseTaskInner, filter_and_index, indexLoop, alInsert,
      build_relation_map, relPairs, buildRelLoop, addRelEdge, alLookup,
      processIndividuals, processOneIndividual, claimKeypoints, alPop,
      RItem.type, RItem.idOpt, RItem.kptData, JNum.mul, JNum.div100, JNum.isnan,
      leftoverLoop, video_from_task, rectItem, kptItem, freshId]

/-- Witness for `round_trip` at a concrete well-formed one-frame collection. -/
theorem round_trip_w :
    ∃ labels2 : Labels, parse_tasks [exC1GoodTask] exSkel = .ok labels2 ∧
      labels2.labeled_frames.length = exC1Good.labeled_frames.length ∧
      List.Forall₂ frameRel labels2.labeled_frames exC1Good.labeled_frames := by
  have hok : ∀ f ∈ exC1Good.labeled_frames, ∀ inst ∈ f.instances, instOK inst := by
    intro f hf inst hinst
    simp only [exC1Good, List.mem_singleton] at hf
    subst hf
    simp only [List.mem_singleton] at hinst
    subst hinst
    exact ⟨by simp [alKeys], ⟨("head", ⟨.num 100, .num 50, none⟩), by simp, rfl⟩⟩
  have hw : write_labels exC1Good = .ok [exC1GoodTask] := by
    simp [write_labels, writeTasksLoop, write_frame, frameDims, writeInstancesLoop,
      write_instance, writePointsLoop, JNum.divBy, JNum.mul100, exC1Good, exC1GoodTask]
  exact round_trip exC1Good exSkel [exC1GoodTask] hok hw

end LabelStudio
